import Mathlib

/-!
Shallow embedding of the pdfParser repository (PDF outline extractor) and
verification of its specification claims.

Source files embedded: `src/config.py`, `src/extractor.py`, `src/processor.py`,
`src/utils.py`.  Pure computations are translated as Lean functions; Python
floats are modelled by `ℚ`; Python exceptions by `Except String`; regular
expression matching (an external engine) is abstracted by a match oracle
passed as a function argument.
-/

namespace PdfParser

/-- Heading levels used by the classifier and outline builder
(`extractor.py`; the string constants "BODY", "TITLE", "H1", "H2", "H3"). -/
inductive HLevel where
  | BODY
  | TITLE
  | H1
  | H2
  | H3
deriving DecidableEq, Repr

/-- The 13 supported languages of `Config.SUPPORTED_LANGUAGES` (`config.py`). -/
inductive Lang where
  | english
  | japanese
  | chinese_simplified
  | chinese_traditional
  | korean
  | spanish
  | french
  | german
  | portuguese
  | italian
  | russian
  | arabic
  | hindi
deriving DecidableEq, Repr

/-- Membership in the list `['japanese', 'chinese_simplified',
'chinese_traditional', 'korean']` that `extractor.py` repeats at each
language-dependent threshold. -/
def isCJKK : Lang → Bool
  | .japanese => true
  | .chinese_simplified => true
  | .chinese_traditional => true
  | .korean => true
  | _ => false

/-- Membership in the list `['japanese', 'chinese_simplified',
'chinese_traditional']` used by `_finalize_line` to decide concatenative
joining.  Note: Korean is NOT in this list. -/
def isConcatLang : Lang → Bool
  | .japanese => true
  | .chinese_simplified => true
  | .chinese_traditional => true
  | _ => false

/-- Extraction method recorded on a line (`"direct"`, `"ocr"`,
`"ocr_fallback"` in `extractor.py`). -/
inductive Method where
  | direct
  | ocr
  | ocr_fallback
deriving DecidableEq, Repr

/-! ### Language auto-detection (`Config.detect_language`, config.py lines 228-246) -/

/-- Model of Python `str.isalpha`, restricted to the scripts relevant to this
repository: ASCII letters, Hiragana, Katakana, the CJK unified ideographs up
to U+9FAF, and Hangul syllables.  (Python's `isalpha` is true on further
Unicode letters; the claims quantify only over these scripts, and the
detection counters below are unaffected by the restriction.) -/
def pyIsAlpha (c : Char) : Bool :=
  c.isAlpha
    || (0x3041 ≤ c.toNat && c.toNat ≤ 0x3096)
    || (0x30A1 ≤ c.toNat && c.toNat ≤ 0x30FA)
    || (0x4E00 ≤ c.toNat && c.toNat ≤ 0x9FAF)
    || (0xAC00 ≤ c.toNat && c.toNat ≤ 0xD7A3)

/-- `'぀' <= c <= 'ゟ' or '゠' <= c <= 'ヿ' or '一' <= c <= '龯'`:
the character test of `japanese_chars` in `detect_language`. -/
def isJapaneseChar (c : Char) : Bool :=
  (0x3040 ≤ c.toNat && c.toNat ≤ 0x309F)
    || (0x30A0 ≤ c.toNat && c.toNat ≤ 0x30FF)
    || (0x4E00 ≤ c.toNat && c.toNat ≤ 0x9FAF)

/-- `'一' <= c <= '龯'`: the character test of `chinese_chars`. -/
def isChineseChar (c : Char) : Bool :=
  0x4E00 ≤ c.toNat && c.toNat ≤ 0x9FAF

/-- `'가' <= c <= '힯'`: the character test of `korean_chars`. -/
def isKoreanChar (c : Char) : Bool :=
  0xAC00 ≤ c.toNat && c.toNat ≤ 0xD7AF

/-- `japanese_chars` counter of `detect_language`. -/
def japaneseChars (s : List Char) : ℕ := (s.filter isJapaneseChar).length

/-- `chinese_chars` counter of `detect_language`. -/
def chineseChars (s : List Char) : ℕ := (s.filter isChineseChar).length

/-- `korean_chars` counter of `detect_language`. -/
def koreanChars (s : List Char) : ℕ := (s.filter isKoreanChar).length

/-- `total_chars` counter of `detect_language` (`c.isalpha()`). -/
def totalChars (s : List Char) : ℕ := (s.filter pyIsAlpha).length

/-- `Config.detect_language` (config.py lines 228-246), over the character
list of the text sample. -/
def detect_language (s : List Char) : Lang :=
  let total := totalChars s
  if 0 < total then
    if (3 : ℚ) / 10 < (japaneseChars s : ℚ) / (total : ℚ) then .japanese
    else if (3 : ℚ) / 10 < (koreanChars s : ℚ) / (total : ℚ) then .korean
    else if (3 : ℚ) / 10 < (chineseChars s : ℚ) / (total : ℚ) then .chinese_simplified
    else .english
  else .english

/-- Filtering with a pointwise-stronger predicate keeps at most as many
elements. -/
theorem length_filter_mono {α : Type} (p q : α → Bool)
    (h : ∀ a, p a = true → q a = true) (l : List α) :
    (l.filter p).length ≤ (l.filter q).length := by
  induction l with
  | nil => simp
  | cons a t ih =>
    simp only [List.filter_cons]
    by_cases hp : p a = true
    · simp [hp, h a hp]
      omega
    · simp only [Bool.not_eq_true] at hp
      simp only [hp]
      by_cases hq : q a = true
      · simp [hq]
        omega
      · simp only [Bool.not_eq_true] at hq
        simp [hq]
        exact ih

/-- Every character counted by `chinese_chars` is counted by
`japanese_chars`: the Japanese counter's third range is exactly the Chinese
counter's range. -/
theorem chineseChars_le_japaneseChars (s : List Char) :
    chineseChars s ≤ japaneseChars s := by
  refine length_filter_mono _ _ (fun c hc => ?_) s
  simp only [isChineseChar, Bool.and_eq_true, decide_eq_true_eq] at hc
  simp only [isJapaneseChar, Bool.or_eq_true, Bool.and_eq_true, decide_eq_true_eq]
  exact Or.inr hc

/-- A filter that keeps every element preserves the length. -/
theorem length_filter_of_all {α : Type} (p : α → Bool) (l : List α)
    (h : ∀ a ∈ l, p a = true) : (l.filter p).length = l.length := by
  induction l with
  | nil => simp
  | cons a t ih =>
    simp only [List.filter_cons, h a (by simp), if_pos trivial, List.length_cons]
    rw [ih (fun x hx => h x (by simp [hx]))]

/-- A filter that keeps no element yields length 0. -/
theorem length_filter_of_none {α : Type} (p : α → Bool) (l : List α)
    (h : ∀ a ∈ l, p a = false) : (l.filter p).length = 0 := by
  induction l with
  | nil => simp
  | cons a t ih =>
    simp only [List.filter_cons, h a (by simp)]
    simp only [Bool.false_eq_true, if_false]
    exact ih (fun x hx => h x (by simp [hx]))

/-- A nonempty sample whose characters all lie in the Hiragana, Katakana or
CJK-ideograph ranges is detected as Japanese: every such character is counted
by both `japanese_chars` and `total_chars`, so the Japanese fraction is 1. -/
theorem detect_language_of_pure_japanese (s : List Char) (hne : s ≠ [])
    (hall : ∀ c ∈ s, (0x3041 ≤ c.toNat ∧ c.toNat ≤ 0x3096) ∨
      (0x30A1 ≤ c.toNat ∧ c.toNat ≤ 0x30FA) ∨
      (0x4E00 ≤ c.toNat ∧ c.toNat ≤ 0x9FAF)) :
    detect_language s = .japanese := by
  have hjp : japaneseChars s = s.length := by
    refine length_filter_of_all _ _ (fun c hc => ?_)
    simp only [isJapaneseChar, Bool.or_eq_true, Bool.and_eq_true, decide_eq_true_eq]
    rcases hall c hc with h | h | h
    · exact Or.inl (Or.inl ⟨by omega, by omega⟩)
    · exact Or.inl (Or.inr ⟨by omega, by omega⟩)
    · exact Or.inr h
  have htot : totalChars s = s.length := by
    refine length_filter_of_all _ _ (fun c hc => ?_)
    simp only [pyIsAlpha, Bool.or_eq_true, Bool.and_eq_true, decide_eq_true_eq]
    rcases hall c hc with h | h | h
    · exact Or.inl (Or.inl (Or.inl (Or.inr h)))
    · exact Or.inl (Or.inl (Or.inr h))
    · exact Or.inl (Or.inr h)
  have hlen : (0 : ℚ) < ((s.length : ℚ)) := by
    exact_mod_cast List.length_pos.mpr hne
  simp only [detect_language]
  rw [if_pos (by rw [htot]; exact List.length_pos.mpr hne)]
  rw [if_pos (by rw [hjp, htot, div_self (ne_of_gt hlen)]; norm_num)]

/-- C6: `Config.detect_language` returns Japanese when the kana+CJK fraction
of the alphabetic characters exceeds 0.3, else Korean when the Hangul
fraction exceeds 0.3, else simplified Chinese when the CJK-ideograph
fraction exceeds 0.3, and English otherwise (also with no alphabetic
characters at all); a sample built entirely from Hiragana/Katakana/Kanji
detects as Japanese, entirely from Hangul syllables as Korean, and a sample
of ASCII-only characters (no non-Latin script) as English. -/
theorem detect_language_spec_c6 (s : List Char) :
    (0 < totalChars s →
      (3 : ℚ) / 10 < (japaneseChars s : ℚ) / (totalChars s : ℚ) →
      detect_language s = .japanese) ∧
    (0 < totalChars s →
      ¬ ((3 : ℚ) / 10 < (japaneseChars s : ℚ) / (totalChars s : ℚ)) →
      (3 : ℚ) / 10 < (koreanChars s : ℚ) / (totalChars s : ℚ) →
      detect_language s = .korean) ∧
    (0 < totalChars s →
      ¬ ((3 : ℚ) / 10 < (japaneseChars s : ℚ) / (totalChars s : ℚ)) →
      ¬ ((3 : ℚ) / 10 < (koreanChars s : ℚ) / (totalChars s : ℚ)) →
      (3 : ℚ) / 10 < (chineseChars s : ℚ) / (totalChars s : ℚ) →
      detect_language s = .chinese_simplified) ∧
    (0 < totalChars s →
      ¬ ((3 : ℚ) / 10 < (japaneseChars s : ℚ) / (totalChars s : ℚ)) →
      ¬ ((3 : ℚ) / 10 < (koreanChars s : ℚ) / (totalChars s : ℚ)) →
      ¬ ((3 : ℚ) / 10 < (chineseChars s : ℚ) / (totalChars s : ℚ)) →
      detect_language s = .english) ∧
    (totalChars s = 0 → detect_language s = .english) ∧
    (s ≠ [] →
      (∀ c ∈ s, (0x3041 ≤ c.toNat ∧ c.toNat ≤ 0x3096) ∨
        (0x30A1 ≤ c.toNat ∧ c.toNat ≤ 0x30FA) ∨
        (0x4E00 ≤ c.toNat ∧ c.toNat ≤ 0x9FAF)) →
      detect_language s = .japanese) ∧
    (s ≠ [] →
      (∀ c ∈ s, 0xAC00 ≤ c.toNat ∧ c.toNat ≤ 0xD7A3) →
      detect_language s = .korean) ∧
    ((∀ c ∈ s, c.toNat < 0x80) → detect_language s = .english) := by
  have hlen : ∀ (h : s ≠ []), (0 : ℚ) < ((s.length : ℚ)) := by
    intro h
    exact_mod_cast List.length_pos.mpr h
  have b1 : ∀ (h0 : 0 < totalChars s)
      (hj : (3 : ℚ) / 10 < (japaneseChars s : ℚ) / (totalChars s : ℚ)),
      detect_language s = .japanese := by
    intro h0 hj
    simp only [detect_language]
    rw [if_pos h0, if_pos hj]
  have b2 : ∀ (h0 : 0 < totalChars s)
      (hj : ¬ ((3 : ℚ) / 10 < (japaneseChars s : ℚ) / (totalChars s : ℚ)))
      (hk : (3 : ℚ) / 10 < (koreanChars s : ℚ) / (totalChars s : ℚ)),
      detect_language s = .korean := by
    intro h0 hj hk
    simp only [detect_language]
    rw [if_pos h0, if_neg hj, if_pos hk]
  have b4 : ∀ (h0 : 0 < totalChars s)
      (hj : ¬ ((3 : ℚ) / 10 < (japaneseChars s : ℚ) / (totalChars s : ℚ)))
      (hk : ¬ ((3 : ℚ) / 10 < (koreanChars s : ℚ) / (totalChars s : ℚ)))
      (hc : ¬ ((3 : ℚ) / 10 < (chineseChars s : ℚ) / (totalChars s : ℚ))),
      detect_language s = .english := by
    intro h0 hj hk hc
    simp only [detect_language]
    rw [if_pos h0, if_neg hj, if_neg hk, if_neg hc]
  refine ⟨b1, b2, ?_, b4, ?_, ?_, ?_, ?_⟩
  · intro h0 hj hk hc
    simp only [detect_language]
    rw [if_pos h0, if_neg hj, if_neg hk, if_pos hc]
  · intro h0
    simp only [detect_language]
    rw [if_neg (by omega)]
  · exact detect_language_of_pure_japanese s
  · intro hne hall
    have hko : koreanChars s = s.length := by
      refine length_filter_of_all _ _ (fun c hc => ?_)
      have h12 := hall c hc
      simp only [isKoreanChar, Bool.and_eq_true, decide_eq_true_eq]
      omega
    have hjp : japaneseChars s = 0 := by
      refine length_filter_of_none _ _ (fun c hc => ?_)
      have h12 := hall c hc
      simp only [isJapaneseChar, Bool.or_eq_false_iff, Bool.and_eq_false_iff,
        decide_eq_false_iff_not]
      omega
    have htot : totalChars s = s.length := by
      refine length_filter_of_all _ _ (fun c hc => ?_)
      simp only [pyIsAlpha, Bool.or_eq_true, Bool.and_eq_true, decide_eq_true_eq]
      exact Or.inr (hall c hc)
    refine b2 ?_ ?_ ?_
    · rw [htot]; exact List.length_pos.mpr hne
    · rw [hjp, htot]
      norm_num
    · rw [hko, htot, div_self (ne_of_gt (hlen hne))]
      norm_num
  · intro hall
    by_cases h0 : 0 < totalChars s
    · have hjp : japaneseChars s = 0 := by
        refine length_filter_of_none _ _ (fun c hc => ?_)
        have := hall c hc
        simp only [isJapaneseChar, Bool.or_eq_false_iff, Bool.and_eq_false_iff,
          decide_eq_false_iff_not]
        refine ⟨⟨?_, ?_⟩, ?_⟩ <;> omega
      have hko : koreanChars s = 0 := by
        refine length_filter_of_none _ _ (fun c hc => ?_)
        have := hall c hc
        simp only [isKoreanChar, Bool.and_eq_false_iff, decide_eq_false_iff_not]
        omega
      have hcn : chineseChars s = 0 := by
        refine length_filter_of_none _ _ (fun c hc => ?_)
        have := hall c hc
        simp only [isChineseChar, Bool.and_eq_false_iff, decide_eq_false_iff_not]
        omega
      refine b4 h0 ?_ ?_ ?_ <;>
        · first
            | (rw [hjp]; norm_num)
            | (rw [hko]; norm_num)
            | (rw [hcn]; norm_num)
    · simp only [detect_language]
      rw [if_neg h0]

/-- Witness for `detect_language_spec_c6`: concrete pure-Hiragana, pure-Hangul
and pure-ASCII samples. -/
theorem detect_language_spec_c6_witness :
    detect_language "ひらがな".data = .japanese ∧
    detect_language "한국어".data = .korean ∧
    detect_language "hello world".data = .english := by
  refine ⟨?_, ?_, ?_⟩
  · exact (detect_language_spec_c6 _).2.2.2.2.2.1 (by decide) (by decide)
  · exact (detect_language_spec_c6 _).2.2.2.2.2.2.1 (by decide) (by decide)
  · exact (detect_language_spec_c6 _).2.2.2.2.2.2.2 (by decide)

/-- C10: the Chinese branch of `Config.detect_language` is unreachable,
because the Japanese counter includes the whole CJK-ideograph range the
Chinese counter uses; detection never returns a Chinese language, and a
nonempty pure-CJK-ideograph sample is detected as Japanese. -/
theorem detect_language_chinese_unreachable_c10 (s : List Char) :
    detect_language s ≠ .chinese_simplified ∧
    detect_language s ≠ .chinese_traditional ∧
    (s ≠ [] →
      (∀ c ∈ s, 0x4E00 ≤ c.toNat ∧ c.toNat ≤ 0x9FAF) →
      detect_language s = .japanese) := by
  refine ⟨?_, ?_, ?_⟩
  · intro h
    simp only [detect_language] at h
    by_cases h0 : 0 < totalChars s
    · rw [if_pos h0] at h
      by_cases hj : (3 : ℚ) / 10 < (japaneseChars s : ℚ) / (totalChars s : ℚ)
      · rw [if_pos hj] at h
        exact Lang.noConfusion h
      · rw [if_neg hj] at h
        by_cases hk : (3 : ℚ) / 10 < (koreanChars s : ℚ) / (totalChars s : ℚ)
        · rw [if_pos hk] at h
          exact Lang.noConfusion h
        · rw [if_neg hk] at h
          by_cases hc : (3 : ℚ) / 10 < (chineseChars s : ℚ) / (totalChars s : ℚ)
          · refine hj ?_
            refine lt_of_lt_of_le hc ?_
            have hle : (chineseChars s : ℚ) ≤ (japaneseChars s : ℚ) := by
              exact_mod_cast chineseChars_le_japaneseChars s
            have htot : (0 : ℚ) < (totalChars s : ℚ) := by exact_mod_cast h0
            exact (div_le_div_iff_of_pos_right htot).mpr hle
          · rw [if_neg hc] at h
            exact Lang.noConfusion h
    · rw [if_neg h0] at h
      exact Lang.noConfusion h
  · intro h
    simp only [detect_language] at h
    by_cases h0 : 0 < totalChars s
    · rw [if_pos h0] at h
      by_cases hj : (3 : ℚ) / 10 < (japaneseChars s : ℚ) / (totalChars s : ℚ)
      · rw [if_pos hj] at h; exact Lang.noConfusion h
      · rw [if_neg hj] at h
        by_cases hk : (3 : ℚ) / 10 < (koreanChars s : ℚ) / (totalChars s : ℚ)
        · rw [if_pos hk] at h; exact Lang.noConfusion h
        · rw [if_neg hk] at h
          by_cases hc : (3 : ℚ) / 10 < (chineseChars s : ℚ) / (totalChars s : ℚ)
          · rw [if_pos hc] at h; exact Lang.noConfusion h
          · rw [if_neg hc] at h; exact Lang.noConfusion h
    · rw [if_neg h0] at h; exact Lang.noConfusion h
  · intro hne hall
    exact detect_language_of_pure_japanese s hne
      (fun c hc => Or.inr (Or.inr (hall c hc)))

/-- Witness for `detect_language_chinese_unreachable_c10`: a concrete
pure-ideograph sample detects as Japanese, not Chinese. -/
theorem detect_language_chinese_unreachable_c10_witness :
    detect_language "中文文本".data = .japanese := by
  exact (detect_language_chinese_unreachable_c10 _).2.2 (by decide) (by decide)

/-! ### Heading rules (`Config._get_*_config`, config.py)

The regular expression of each rule is kept opaque (matching is delegated to
a match oracle `mat : String → Nat → Bool`, index-based over the language's
rule list); the level tag and base confidence of every rule are embedded
verbatim from `config.py`. -/

/-- A heading rule: level tag and base confidence (the regex is opaque). -/
structure Rule where
  level : HLevel
  base : ℚ
deriving DecidableEq, Repr

/-- The English pattern list of `_get_english_config` (levels and base
confidences, in source order). -/
def englishRules : List Rule :=
  [⟨.H1, 9/10⟩, ⟨.H1, 85/100⟩, ⟨.H1, 8/10⟩,
   ⟨.H2, 8/10⟩, ⟨.H2, 7/10⟩, ⟨.H3, 75/100⟩,
   ⟨.H3, 6/10⟩, ⟨.H3, 5/10⟩,
   ⟨.TITLE, 7/10⟩, ⟨.TITLE, 6/10⟩,
   ⟨.H1, 6/10⟩, ⟨.H1, 5/10⟩]

/-- The Japanese pattern list of `_get_japanese_config`. -/
def japaneseRules : List Rule :=
  [⟨.H1, 9/10⟩, ⟨.H1, 8/10⟩, ⟨.H2, 8/10⟩, ⟨.H3, 75/100⟩,
   ⟨.H3, 6/10⟩, ⟨.H3, 6/10⟩,
   ⟨.H1, 8/10⟩, ⟨.H1, 7/10⟩, ⟨.H1, 6/10⟩,
   ⟨.TITLE, 6/10⟩]

/-- The Chinese pattern list of `_get_chinese_config` (shared by simplified
and traditional). -/
def chineseRules : List Rule :=
  [⟨.H1, 9/10⟩, ⟨.H1, 8/10⟩, ⟨.H2, 8/10⟩,
   ⟨.H3, 6/10⟩,
   ⟨.H1, 8/10⟩, ⟨.H1, 6/10⟩]

/-- The Korean pattern list of `_get_korean_config`. -/
def koreanRules : List Rule :=
  [⟨.H1, 9/10⟩, ⟨.H1, 8/10⟩, ⟨.H2, 8/10⟩,
   ⟨.H3, 6/10⟩,
   ⟨.H1, 8/10⟩, ⟨.H1, 6/10⟩]

/-- `Config._get_language_config` dispatch: languages without a dedicated
rule set fall back to the English rule list (`_get_default_config`). -/
def heading_patterns : Lang → List Rule
  | .english => englishRules
  | .japanese => japaneseRules
  | .chinese_simplified => chineseRules
  | .chinese_traditional => chineseRules
  | .korean => koreanRules
  | _ => englishRules

/-- `font_thresholds` is `{'TITLE': 16, 'H1': 14, 'H2': 12, 'H3': 10}` in
every language configuration; `classify_heading` reads it with
`.get(heading_type, 12)`, whose default covers `BODY`. -/
def fontThreshold : HLevel → ℚ
  | .TITLE => 16
  | .H1 => 14
  | .H2 => 12
  | .H3 => 10
  | .BODY => 12

/-! ### Heading classification (`OptimizedOCRExtractor.classify_heading`,
extractor.py lines 420-480) -/

/-- A text line with the metadata fields `classify_heading` reads. -/
structure Line where
  text : String
  page : ℕ
  font_size : ℚ
  is_bold : Bool
  is_centered : Bool
  method : Method
deriving DecidableEq, Repr

/-- Model of Python `str.strip()`: drop leading and trailing whitespace
(structural, over the character list). -/
def pyStrip (s : String) : String :=
  String.mk (((s.data.dropWhile Char.isWhitespace).reverse.dropWhile
    Char.isWhitespace).reverse)

/-- `min_length` in `classify_heading`: 1 for CJK/Korean, 3 otherwise. -/
def minTextLen (lang : Lang) : ℕ := if isCJKK lang then 1 else 3

/-- `re.match(r'^[\d\s]+$', text)`: the text is nonempty and consists solely
of digits and whitespace (ASCII model of the character classes). -/
def isNumericOnly (s : String) : Bool :=
  !s.data.isEmpty && s.data.all (fun c => c.isDigit || c.isWhitespace)

/-- The per-rule confidence computation inside the loop of
`classify_heading`: base confidence plus formatting boosts, clamped at
0.98. -/
def ruleScore (line : Line) (r : Rule) : ℚ :=
  let c0 := r.base
  let c1 := if line.is_bold then c0 + 1/10 else c0
  let c2 := if fontThreshold r.level ≤ line.font_size then c1 + 15/100 else c1
  let c3 := if line.is_centered ∧ r.level = .TITLE then c2 + 2/10 else c2
  let c4 := if line.method = .direct then c3 + 5/100 else c3
  min (98/100) c4

/-- The pattern-scan loop of `classify_heading`, with the running rule index
made explicit: for each rule whose regex matches (`mat t i`, modelling
`re.search(pattern, text, re.IGNORECASE)`), keep it when its score strictly
exceeds the best so far (`if confidence > best_match[1]`). -/
def scanGo (mat : String → ℕ → Bool) (line : Line) (t : String) :
    ℕ → List Rule → HLevel × ℚ → HLevel × ℚ
  | _, [], best => best
  | i, r :: rs, best =>
      scanGo mat line t (i + 1) rs
        (if mat t i ∧ best.2 < ruleScore line r then (r.level, ruleScore line r)
         else best)

/-- The pattern-scan loop of `classify_heading`: scan the language's rules in
order starting from `best_match = ("BODY", 0.0)`. -/
def scanRules (lang : Lang) (mat : String → ℕ → Bool) (line : Line)
    (t : String) : HLevel × ℚ :=
  scanGo mat line t 0 (heading_patterns lang) (.BODY, 0)

/-- The formatting-only fallback cascade of `classify_heading` (lines
467-479), applied when the best match's confidence is below 0.25. -/
def fallbackClassify (line : Line) (t : String) (best : HLevel × ℚ) :
    HLevel × ℚ :=
  if 18 ≤ line.font_size ∧ (line.is_bold ∨ line.is_centered) then (.TITLE, 5/10)
  else if 16 ≤ line.font_size ∧ line.is_bold then (.H1, 4/10)
  else if 14 ≤ line.font_size ∧ line.is_bold then (.H2, 35/100)
  else if 12 ≤ line.font_size ∧ line.is_bold then (.H3, 25/100)
  else if line.is_centered ∧ 8 < t.length then (.TITLE, 3/10)
  else best

/-- `OptimizedOCRExtractor.classify_heading` (extractor.py lines 420-480). -/
def classify_heading (lang : Lang) (mat : String → ℕ → Bool) (line : Line) :
    HLevel × ℚ :=
  let t := pyStrip line.text
  if t.length < minTextLen lang then (.BODY, 1/10)
  else if isNumericOnly t then (.BODY, 1/10)
  else
    let best := scanRules lang mat line t
    if best.2 < 25/100 then fallbackClassify line t best else best

/-! ### Properties of the pattern scan -/

/-- Full characterization of the scan loop: either no matching rule ever
beats the accumulator (which is then returned unchanged), or the result is
the first matching rule attaining the maximal score, with all earlier
matches scoring strictly less and all later matches scoring no more. -/
theorem scanGo_spec (mat : String → ℕ → Bool) (line : Line) (t : String)
    (rs : List Rule) (k : ℕ) (acc : HLevel × ℚ) :
    (scanGo mat line t k rs acc = acc ∧
      ∀ j r, rs.get? j = some r → mat t (k + j) = true →
        ruleScore line r ≤ acc.2) ∨
    (∃ i r, rs.get? i = some r ∧ mat t (k + i) = true ∧
      scanGo mat line t k rs acc = (r.level, ruleScore line r) ∧
      acc.2 < ruleScore line r ∧
      (∀ j q, j < i → rs.get? j = some q → mat t (k + j) = true →
        ruleScore line q < ruleScore line r) ∧
      (∀ j q, i < j → rs.get? j = some q → mat t (k + j) = true →
        ruleScore line q ≤ ruleScore line r)) := by
  induction rs generalizing k acc with
  | nil =>
    left
    exact ⟨rfl, fun j r hj _ => by simp at hj⟩
  | cons r0 rest ih =>
    by_cases hm : mat t k = true ∧ acc.2 < ruleScore line r0
    · have hstep : scanGo mat line t k (r0 :: rest) acc =
          scanGo mat line t (k + 1) rest (r0.level, ruleScore line r0) := by
        simp only [scanGo, if_pos hm]
      rcases ih (k + 1) (r0.level, ruleScore line r0) with ⟨heq, hbd⟩ | ⟨i, r, hget, hmat, heq, hlt, hbefore, hafter⟩
      · right
        refine ⟨0, r0, rfl, by simpa using hm.1, ?_, hm.2, ?_, ?_⟩
        · rw [hstep, heq]
        · intro j q hj _ _
          omega
        · intro j q hj hget hmat
          obtain ⟨j', rfl⟩ : ∃ j', j = j' + 1 := ⟨j - 1, by omega⟩
          have := hbd j' q (by simpa using hget)
            (by rw [show k + 1 + j' = k + (j' + 1) by omega]; exact hmat)
          simpa using this
      · right
        refine ⟨i + 1, r, by simpa using hget,
          by rw [show k + (i + 1) = k + 1 + i by omega]; exact hmat, ?_, ?_, ?_, ?_⟩
        · rw [hstep, heq]
        · exact lt_trans hm.2 hlt
        · intro j q hj hgetj hmatj
          cases j with
          | zero =>
            obtain rfl : r0 = q := by simpa using hgetj
            simpa using hlt
          | succ j' =>
            exact hbefore j' q (by omega) (by simpa using hgetj)
              (by rw [show k + 1 + j' = k + (j' + 1) by omega]; exact hmatj)
        · intro j q hj hgetj hmatj
          obtain ⟨j', rfl⟩ : ∃ j', j = j' + 1 := ⟨j - 1, by omega⟩
          exact hafter j' q (by omega) (by simpa using hgetj)
            (by rw [show k + 1 + j' = k + (j' + 1) by omega]; exact hmatj)
    · have hstep : scanGo mat line t k (r0 :: rest) acc =
          scanGo mat line t (k + 1) rest acc := by
        simp only [scanGo, if_neg hm]
      rcases ih (k + 1) acc with ⟨heq, hbd⟩ | ⟨i, r, hget, hmat, heq, hlt, hbefore, hafter⟩
      · left
        refine ⟨by rw [hstep, heq], ?_⟩
        intro j r hgetj hmatj
        cases j with
        | zero =>
          obtain rfl : r0 = r := by simpa using hgetj
          by_cases hmk : acc.2 < ruleScore line r0
          · exact absurd ⟨by simpa using hmatj, hmk⟩ hm
          · exact not_lt.mp hmk
        | succ j' =>
          exact hbd j' r (by simpa using hgetj)
            (by rw [show k + 1 + j' = k + (j' + 1) by omega]; exact hmatj)
      · right
        refine ⟨i + 1, r, by simpa using hget,
          by rw [show k + (i + 1) = k + 1 + i by omega]; exact hmat, ?_, hlt, ?_, ?_⟩
        · rw [hstep, heq]
        · intro j q hj hgetj hmatj
          cases j with
          | zero =>
            obtain rfl : r0 = q := by simpa using hgetj
            by_cases hmk : acc.2 < ruleScore line r0
            · exact absurd ⟨by simpa using hmatj, hmk⟩ hm
            · exact lt_of_le_of_lt (not_lt.mp hmk) hlt
          | succ j' =>
            exact hbefore j' q (by omega) (by simpa using hgetj)
              (by rw [show k + 1 + j' = k + (j' + 1) by omega]; exact hmatj)
        · intro j q hj hgetj hmatj
          obtain ⟨j', rfl⟩ : ∃ j', j = j' + 1 := ⟨j - 1, by omega⟩
          exact hafter j' q (by omega) (by simpa using hgetj)
            (by rw [show k + 1 + j' = k + (j' + 1) by omega]; exact hmatj)

/-- Every rule in every language's pattern list has base confidence at least
0.5 (the smallest base in `config.py` is 0.5). -/
theorem rules_base_ge_half (lang : Lang) (i : ℕ) (r : Rule)
    (h : (heading_patterns lang).get? i = some r) : 1/2 ≤ r.base := by
  have hm : r ∈ heading_patterns lang := List.get?_mem h
  cases lang <;>
    simp only [heading_patterns, englishRules, japaneseRules, chineseRules,
      koreanRules, List.mem_cons, List.not_mem_nil, or_false] at hm <;>
    rcases hm with rfl | rfl | rfl | rfl | rfl | rfl | rfl | rfl | rfl | rfl | rfl | rfl <;>
    norm_num

/-- The per-rule score never drops below the rule's base (boosts are
nonnegative and the clamp is 0.98): with a base of at least 0.5 the score is
at least 0.5. -/
theorem ruleScore_ge_half (line : Line) (r : Rule) (hb : 1/2 ≤ r.base) :
    1/2 ≤ ruleScore line r := by
  unfold ruleScore
  rw [le_min_iff]
  refine ⟨by norm_num, ?_⟩
  split_ifs <;> linarith

/-- If some rule of the language matches, the scan result scores at least
0.5. -/
theorem scanRules_ge_of_match (lang : Lang) (mat : String → ℕ → Bool)
    (line : Line) (t : String)
    (h : ∃ i r, (heading_patterns lang).get? i = some r ∧ mat t i = true) :
    1/2 ≤ (scanRules lang mat line t).2 := by
  obtain ⟨i, r, hget, hmat⟩ := h
  have hhalf : 1/2 ≤ ruleScore line r :=
    ruleScore_ge_half line r (rules_base_ge_half lang i r hget)
  rcases scanGo_spec mat line t (heading_patterns lang) 0 (.BODY, 0) with
    ⟨_, hbd⟩ | ⟨i', r', hget', _, heq, _, hbefore, hafter⟩
  · have := hbd i r hget (by simpa using hmat)
    simp only at this
    linarith
  · have h2 : 1/2 ≤ ruleScore line r' := by
      rcases lt_trichotomy i i' with hlt | rfl | hgt
      · exact le_of_lt (lt_of_le_of_lt hhalf
          (hbefore i r hlt hget (by simpa using hmat)))
      · rw [hget'] at hget
        injection hget with hrr
        rw [hrr]
        exact hhalf
      · exact le_trans hhalf (hafter i r hgt hget (by simpa using hmat))
    rw [show scanRules lang mat line t =
      scanGo mat line t 0 (heading_patterns lang) (.BODY, 0) from rfl, heq]
    exact h2

/-- If no rule of the language matches, the scan returns the initial
`("BODY", 0.0)` unchanged. -/
theorem scanRules_no_match (lang : Lang) (mat : String → ℕ → Bool)
    (line : Line) (t : String)
    (h : ∀ i r, (heading_patterns lang).get? i = some r → mat t i = false) :
    scanRules lang mat line t = (.BODY, 0) := by
  rcases scanGo_spec mat line t (heading_patterns lang) 0 (.BODY, 0) with
    ⟨heq, _⟩ | ⟨i, r, hget, hmat, _, _, _, _⟩
  · exact heq
  · rw [Nat.zero_add] at hmat
    rw [h i r hget] at hmat
    cases hmat

/-- C4: `classify_heading` returns `("BODY", 0.1)` immediately when the
trimmed text is shorter than the language minimum (1 for CJK/Korean, 3
otherwise) or consists solely of digits and whitespace; otherwise each
matching rule's score is its base confidence plus 0.10 if bold, plus 0.15
if the font size meets the threshold for the rule's level, plus 0.20 if
centered and the rule is TITLE, plus 0.05 for the DIRECT method, clamped at
0.98; and when some rule matches, the verdict is the single
highest-scoring match, ties keeping the first rule found. -/
theorem classify_heading_scan_c4 (lang : Lang) (mat : String → ℕ → Bool)
    (line : Line) :
    (∀ r : Rule, ruleScore line r = min (98/100)
        (r.base + (if line.is_bold then (1 : ℚ)/10 else 0)
          + (if fontThreshold r.level ≤ line.font_size then 15/100 else 0)
          + (if line.is_centered ∧ r.level = .TITLE then 2/10 else 0)
          + (if line.method = .direct then 5/100 else 0))) ∧
    ((pyStrip line.text).length < minTextLen lang ∨
        isNumericOnly (pyStrip line.text) = true →
      classify_heading lang mat line = (.BODY, 1/10)) ∧
    (minTextLen lang ≤ (pyStrip line.text).length →
      isNumericOnly (pyStrip line.text) = false →
      (∃ i r, (heading_patterns lang).get? i = some r ∧
        mat (pyStrip line.text) i = true) →
      ∃ i r, (heading_patterns lang).get? i = some r ∧
        mat (pyStrip line.text) i = true ∧
        classify_heading lang mat line = (r.level, ruleScore line r) ∧
        (∀ j q, j < i → (heading_patterns lang).get? j = some q →
          mat (pyStrip line.text) j = true → ruleScore line q < ruleScore line r) ∧
        (∀ j q, i < j → (heading_patterns lang).get? j = some q →
          mat (pyStrip line.text) j = true → ruleScore line q ≤ ruleScore line r)) := by
  refine ⟨?_, ?_, ?_⟩
  · intro r
    unfold ruleScore
    split_ifs <;> exact congrArg (min (98/100)) (by ring)
  · intro h
    simp only [classify_heading]
    by_cases hs : (pyStrip line.text).length < minTextLen lang
    · rw [if_pos hs]
    · rw [if_neg hs]
      have hnum : isNumericOnly (pyStrip line.text) = true := h.resolve_left hs
      rw [if_pos hnum]
  · intro h1 h2 hex
    have hge : 1/2 ≤ (scanRules lang mat line (pyStrip line.text)).2 :=
      scanRules_ge_of_match lang mat line (pyStrip line.text) hex
    have hcls : classify_heading lang mat line =
        scanRules lang mat line (pyStrip line.text) := by
      simp only [classify_heading]
      rw [if_neg (by omega), if_neg (by rw [h2]; exact Bool.false_ne_true)]
      rw [if_neg (by intro hcontra; linarith)]
    rcases scanGo_spec mat line (pyStrip line.text) (heading_patterns lang) 0
        (.BODY, 0) with ⟨_, hbd⟩ | ⟨i, r, hget, hmat, heq, _, hbefore, hafter⟩
    · obtain ⟨i, r, hget, hmat⟩ := hex
      have hone := hbd i r hget (by simpa using hmat)
      have htwo : 1/2 ≤ ruleScore line r :=
        ruleScore_ge_half line r (rules_base_ge_half lang i r hget)
      simp only at hone
      linarith
    · refine ⟨i, r, hget, by simpa using hmat, ?_, ?_, ?_⟩
      · rw [hcls]
        exact heq
      · intro j q hj hgetj hmatj
        exact hbefore j q hj hgetj (by simpa using hmatj)
      · intro j q hj hgetj hmatj
        exact hafter j q hj hgetj (by simpa using hmatj)

/-- A match oracle for the concrete witness line "Education": under the
English rule list, only the content rule at index 10
(`\b(education|experience|...)\b`, H1, base 0.6) matches it. -/
def matEdu : String → ℕ → Bool := fun t i => t == "Education" && i == 10

/-- The concrete witness line "Education" (plain body formatting, OCR
method). -/
def eduLine : Line := ⟨"Education", 0, 12, false, false, .ocr⟩

/-- Witness for `classify_heading_scan_c4`: the line "Education" matches
exactly the English content rule at index 10 and is classified as its
highest-scoring (only) match. -/
theorem classify_heading_scan_c4_witness :
    ∃ i r, (heading_patterns .english).get? i = some r ∧
      matEdu (pyStrip eduLine.text) i = true ∧
      classify_heading .english matEdu eduLine = (r.level, ruleScore eduLine r) ∧
      (∀ j q, j < i → (heading_patterns .english).get? j = some q →
        matEdu (pyStrip eduLine.text) j = true →
        ruleScore eduLine q < ruleScore eduLine r) ∧
      (∀ j q, i < j → (heading_patterns .english).get? j = some q →
        matEdu (pyStrip eduLine.text) j = true →
        ruleScore eduLine q ≤ ruleScore eduLine r) :=
  (classify_heading_scan_c4 .english matEdu eduLine).2.2 (by decide) (by decide)
    ⟨10, ⟨.H1, 6/10⟩, rfl, by decide⟩

/-- C5: when the rule scan's best confidence is below 0.25 (and the text
passed the short-text and numeric-only checks), the scan found no match at
all (its verdict is the initial `("BODY", 0.0)`), and `classify_heading`
applies the formatting fallback cascade in order, first hit winning:
font≥18 and (bold or centered) → (TITLE, 0.5); font≥16 and bold →
(H1, 0.4); font≥14 and bold → (H2, 0.35); font≥12 and bold → (H3, 0.25);
centered and text length > 8 → (TITLE, 0.3); else the BODY verdict
stands. -/
theorem classify_heading_fallback_c5 (lang : Lang) (mat : String → ℕ → Bool)
    (line : Line)
    (h1 : minTextLen lang ≤ (pyStrip line.text).length)
    (h2 : isNumericOnly (pyStrip line.text) = false)
    (h3 : (scanRules lang mat line (pyStrip line.text)).2 < 25/100) :
    scanRules lang mat line (pyStrip line.text) = (.BODY, 0) ∧
    classify_heading lang mat line =
      (if 18 ≤ line.font_size ∧ (line.is_bold ∨ line.is_centered) then
        (.TITLE, 5/10)
       else if 16 ≤ line.font_size ∧ line.is_bold then (.H1, 4/10)
       else if 14 ≤ line.font_size ∧ line.is_bold then (.H2, 35/100)
       else if 12 ≤ line.font_size ∧ line.is_bold then (.H3, 25/100)
       else if line.is_centered ∧ 8 < (pyStrip line.text).length then (.TITLE, 3/10)
       else (.BODY, 0)) := by
  have hnm : ∀ i r, (heading_patterns lang).get? i = some r →
      mat (pyStrip line.text) i = false := by
    intro i r hget
    by_contra hmt
    have hmt' : mat (pyStrip line.text) i = true := by
      simpa using hmt
    have := scanRules_ge_of_match lang mat line (pyStrip line.text) ⟨i, r, hget, hmt'⟩
    linarith
  have hscan := scanRules_no_match lang mat line (pyStrip line.text) hnm
  refine ⟨hscan, ?_⟩
  simp only [classify_heading]
  rw [if_neg (by omega), if_neg (by rw [h2]; exact Bool.false_ne_true),
    if_pos h3, hscan]
  simp only [fallbackClassify]

/-- Raising the font size (all other fields fixed) never lowers a rule's
score: the only font-dependent boost is the +0.15 threshold boost, which is
monotone in the font size. -/
theorem ruleScore_font_mono (line : Line) (f' : ℚ) (hf : line.font_size ≤ f')
    (r : Rule) :
    ruleScore line r ≤ ruleScore {line with font_size := f'} r := by
  unfold ruleScore
  dsimp only
  split_ifs <;> exact min_le_min (le_refl _) (by linarith)

/-- The scan is monotone: if every rule scores at least as high on `line'`
as on `line`, and the starting accumulator is at least as high, so is the
final score. -/
theorem scanGo_mono_of_ruleScore_mono (mat : String → ℕ → Bool) (t : String)
    (line line' : Line) (hsc : ∀ r, ruleScore line r ≤ ruleScore line' r) :
    ∀ (rs : List Rule) (k : ℕ) (acc acc' : HLevel × ℚ), acc.2 ≤ acc'.2 →
      (scanGo mat line t k rs acc).2 ≤ (scanGo mat line' t k rs acc').2 := by
  intro rs
  induction rs with
  | nil =>
    intro k acc acc' h
    simpa only [scanGo] using h
  | cons r0 rest ih =>
    intro k acc acc' h
    simp only [scanGo]
    apply ih
    by_cases hm : mat t k = true
    · by_cases hup : acc.2 < ruleScore line r0
      · rw [if_pos ⟨hm, hup⟩]
        by_cases hup' : acc'.2 < ruleScore line' r0
        · rw [if_pos ⟨hm, hup'⟩]
          exact hsc r0
        · rw [if_neg (fun hc => hup' hc.2)]
          exact le_trans (hsc r0) (not_lt.mp hup')
      · rw [if_neg (fun hc => hup hc.2)]
        by_cases hup' : acc'.2 < ruleScore line' r0
        · rw [if_pos ⟨hm, hup'⟩]
          exact le_trans h (le_of_lt hup')
        · rw [if_neg (fun hc => hup' hc.2)]
          exact h
    · rw [if_neg (fun hc => hm hc.1), if_neg (fun hc => hm hc.1)]
      exact h

/-- The fallback cascade never returns a negative confidence. -/
theorem fallbackClassify_nonneg (line : Line) (t : String) :
    0 ≤ (fallbackClassify line t (.BODY, 0)).2 := by
  unfold fallbackClassify
  split_ifs <;> norm_num

/-- Monotonicity of the fallback cascade in the font size, under the C7
hypothesis that the current font already meets the threshold of the level
the cascade assigns. -/
theorem fallbackClassify_font_mono (line : Line) (f' : ℚ) (t : String)
    (hf : line.font_size ≤ f')
    (hth : fontThreshold (fallbackClassify line t (.BODY, 0)).1 ≤
      line.font_size) :
    (fallbackClassify line t (.BODY, 0)).2 ≤
      (fallbackClassify {line with font_size := f'} t (.BODY, 0)).2 := by
  unfold fallbackClassify at hth ⊢
  dsimp only at hth ⊢
  by_cases h1 : 18 ≤ line.font_size ∧ (line.is_bold ∨ line.is_centered)
  · rw [if_pos h1]
    rw [if_pos ⟨by linarith [h1.1], h1.2⟩]
  · rw [if_neg h1] at hth ⊢
    by_cases h2 : 16 ≤ line.font_size ∧ line.is_bold
    · rw [if_pos h2]
      by_cases h1' : 18 ≤ f' ∧ (line.is_bold ∨ line.is_centered)
      · rw [if_pos h1']
        norm_num
      · rw [if_neg h1', if_pos ⟨by linarith [h2.1], h2.2⟩]
    · rw [if_neg h2] at hth ⊢
      by_cases h3 : 14 ≤ line.font_size ∧ line.is_bold
      · rw [if_pos h3]
        by_cases h1' : 18 ≤ f' ∧ (line.is_bold ∨ line.is_centered)
        · rw [if_pos h1']
          norm_num
        · rw [if_neg h1']
          by_cases h2' : 16 ≤ f' ∧ line.is_bold
          · rw [if_pos h2']
            norm_num
          · rw [if_neg h2', if_pos ⟨by linarith [h3.1], h3.2⟩]
      · rw [if_neg h3] at hth ⊢
        by_cases h4 : 12 ≤ line.font_size ∧ line.is_bold
        · rw [if_pos h4]
          by_cases h1' : 18 ≤ f' ∧ (line.is_bold ∨ line.is_centered)
          · rw [if_pos h1']
            norm_num
          · rw [if_neg h1']
            by_cases h2' : 16 ≤ f' ∧ line.is_bold
            · rw [if_pos h2']
              norm_num
            · rw [if_neg h2']
              by_cases h3' : 14 ≤ f' ∧ line.is_bold
              · rw [if_pos h3']
                norm_num
              · rw [if_neg h3', if_pos ⟨by linarith [h4.1], h4.2⟩]
        · rw [if_neg h4] at hth ⊢
          by_cases h5 : line.is_centered = true ∧ 8 < t.length
          · rw [if_pos h5] at hth ⊢
            simp only [fontThreshold] at hth
            have hnb : line.is_bold = false := by
              cases hbold : line.is_bold
              · rfl
              · exact absurd ⟨by linarith, hbold⟩ h4
            by_cases h1' : (18 : ℚ) ≤ f'
            · rw [if_pos ⟨h1', Or.inr h5.1⟩]
              norm_num
            · rw [if_neg (fun hc => h1' hc.1),
                if_neg (fun hc => by rw [hnb] at hc; exact Bool.false_ne_true hc.2),
                if_neg (fun hc => by rw [hnb] at hc; exact Bool.false_ne_true hc.2),
                if_neg (fun hc => by rw [hnb] at hc; exact Bool.false_ne_true hc.2)]
          · rw [if_neg h5]
            have hnn : 0 ≤ (fallbackClassify {line with font_size := f'} t (.BODY, 0)).2 :=
              fallbackClassify_nonneg _ t
            unfold fallbackClassify at hnn
            dsimp only at hnn
            rw [if_neg h5] at hnn
            exact hnn

/-- C7: holding text, boldness, centering and method fixed, increasing the
font size from `f` (which meets the threshold of the level classified at
`f`) to any `f' ≥ f` never lowers the confidence returned by
`classify_heading`. -/
theorem classify_heading_font_monotone_c7 (lang : Lang)
    (mat : String → ℕ → Bool) (line : Line) (f' : ℚ)
    (hf : line.font_size ≤ f')
    (hth : fontThreshold (classify_heading lang mat line).1 ≤ line.font_size) :
    (classify_heading lang mat line).2 ≤
      (classify_heading lang mat {line with font_size := f'}).2 := by
  have htext : ({line with font_size := f'} : Line).text = line.text := rfl
  by_cases hshort : (pyStrip line.text).length < minTextLen lang
  · have e1 : classify_heading lang mat line = (.BODY, 1/10) := by
      simp only [classify_heading]
      rw [if_pos hshort]
    have e2 : classify_heading lang mat {line with font_size := f'} =
        (.BODY, 1/10) := by
      simp only [classify_heading, htext]
      rw [if_pos hshort]
    rw [e1, e2]
  · by_cases hnum : isNumericOnly (pyStrip line.text) = true
    · have e1 : classify_heading lang mat line = (.BODY, 1/10) := by
        simp only [classify_heading]
        rw [if_neg hshort, if_pos hnum]
      have e2 : classify_heading lang mat {line with font_size := f'} =
          (.BODY, 1/10) := by
        simp only [classify_heading, htext]
        rw [if_neg hshort, if_pos hnum]
      rw [e1, e2]
    · have hnumf : isNumericOnly (pyStrip line.text) = false :=
        Bool.eq_false_iff.mpr hnum
      have hmono : (scanRules lang mat line (pyStrip line.text)).2 ≤
          (scanRules lang mat {line with font_size := f'}
            (pyStrip line.text)).2 :=
        scanGo_mono_of_ruleScore_mono mat (pyStrip line.text) line _
          (ruleScore_font_mono line f' hf) (heading_patterns lang) 0
          (.BODY, 0) (.BODY, 0) (le_refl _)
      by_cases hP : (scanRules lang mat line (pyStrip line.text)).2 < 25/100
      · have hnm : ∀ i r, (heading_patterns lang).get? i = some r →
            mat (pyStrip line.text) i = false := by
          intro i r hget
          by_contra hmt
          have hmt' : mat (pyStrip line.text) i = true := by
            simpa using hmt
          have := scanRules_ge_of_match lang mat line (pyStrip line.text)
            ⟨i, r, hget, hmt'⟩
          linarith
        have hs1 : scanRules lang mat line (pyStrip line.text) = (.BODY, 0) :=
          scanRules_no_match lang mat line (pyStrip line.text) hnm
        have hs2 : scanRules lang mat {line with font_size := f'}
            (pyStrip line.text) = (.BODY, 0) :=
          scanRules_no_match lang mat _ (pyStrip line.text) hnm
        have e1 : classify_heading lang mat line =
            fallbackClassify line (pyStrip line.text) (.BODY, 0) := by
          simp only [classify_heading]
          rw [if_neg hshort, if_neg (by rw [hnumf]; exact Bool.false_ne_true),
            hs1, if_pos (by norm_num)]
        have e2 : classify_heading lang mat {line with font_size := f'} =
            fallbackClassify {line with font_size := f'} (pyStrip line.text)
              (.BODY, 0) := by
          simp only [classify_heading, htext]
          rw [if_neg hshort, if_neg (by rw [hnumf]; exact Bool.false_ne_true),
            hs2, if_pos (by norm_num)]
        rw [e1] at hth
        rw [e1, e2]
        exact fallbackClassify_font_mono line f' (pyStrip line.text) hf hth
      · have hP' : ¬ (scanRules lang mat {line with font_size := f'}
            (pyStrip line.text)).2 < 25/100 := by
          intro hc
          exact hP (lt_of_le_of_lt hmono hc)
        have e1 : classify_heading lang mat line =
            scanRules lang mat line (pyStrip line.text) := by
          simp only [classify_heading]
          rw [if_neg hshort, if_neg (by rw [hnumf]; exact Bool.false_ne_true),
            if_neg hP]
        have e2 : classify_heading lang mat {line with font_size := f'} =
            scanRules lang mat {line with font_size := f'}
              (pyStrip line.text) := by
          simp only [classify_heading, htext]
          rw [if_neg hshort, if_neg (by rw [hnumf]; exact Bool.false_ne_true),
            if_neg hP']
        rw [e1, e2]
        exact hmono

/-- A concrete centered 16pt line matching no English rule. -/
def centeredLine16 : Line := ⟨"a quiet morning walk", 0, 16, false, true, .ocr⟩

/-- Witness for `classify_heading_font_monotone_c7`: a centered 16pt line
classified (TITLE, 0.3) via the cascade keeps at least that confidence at
20pt (it becomes (TITLE, 0.5)). -/
theorem classify_heading_font_monotone_c7_witness :
    (classify_heading .english
      (fun _ _ => false) centeredLine16).2 ≤
      (classify_heading .english (fun _ _ => false)
        {centeredLine16 with font_size := 20}).2 := by
  refine classify_heading_font_monotone_c7 .english (fun _ _ => false)
    centeredLine16 20 (by norm_num [centeredLine16]) ?_
  have hs : scanRules .english (fun _ _ => false) centeredLine16
      (pyStrip centeredLine16.text) = (.BODY, 0) :=
    scanRules_no_match _ _ _ _ (fun i r _ => rfl)
  have hnum16 : isNumericOnly (pyStrip centeredLine16.text) = false := by decide
  have hlen16 : 8 < (pyStrip centeredLine16.text).length := by decide
  have e1 : classify_heading .english (fun _ _ => false) centeredLine16 =
      (.TITLE, 3/10) := by
    simp only [classify_heading]
    rw [if_neg (by decide), if_neg (by rw [hnum16]; exact Bool.false_ne_true),
      hs, if_pos (by norm_num)]
    simp only [fallbackClassify]
    rw [if_neg (by norm_num [centeredLine16]), if_neg (by norm_num [centeredLine16]),
      if_neg (by norm_num [centeredLine16]), if_neg (by norm_num [centeredLine16]),
      if_pos ⟨rfl, hlen16⟩]
  rw [e1]
  norm_num [fontThreshold, centeredLine16]

/-- The all-false match oracle (no regex matches any text). -/
def matNone : String → ℕ → Bool := fun _ _ => false

/-- The concrete witness line for the fallback cascade: large bold text with
no matching rule. -/
def bigBoldLine : Line := ⟨"Quarterly Report", 0, 20, true, false, .ocr⟩

/-- Witness for `classify_heading_fallback_c5`: with no matching rule, a
20pt bold line falls into the first cascade row and is classified
(TITLE, 0.5). -/
theorem classify_heading_fallback_c5_witness :
    classify_heading .english matNone bigBoldLine = (.TITLE, 5/10) := by
  have h := classify_heading_fallback_c5 .english matNone bigBoldLine
    (by decide) (by decide)
    (by rw [scanRules_no_match .english matNone bigBoldLine (pyStrip bigBoldLine.text)
          (fun i r _ => rfl)]
        norm_num)
  rw [h.2]
  norm_num [bigBoldLine]

/-! ### Outline building (`OptimizedOCRExtractor.extract_outline`,
extractor.py lines 482-552) -/

/-- An outline entry (`{"level": .., "text": .., "page": page + 1}`). -/
structure OutlineItem where
  level : HLevel
  text : String
  page : ℕ
deriving DecidableEq, Repr

/-- The loop state of `extract_outline`: the `title` accumulator (initially
the empty string, which is falsy in Python) and the `outline_items` list. -/
structure OutlineState where
  title : String
  outline : List OutlineItem
deriving DecidableEq, Repr

/-- The acceptance floor `min_confidence` in `extract_outline`: 0.2 for
CJK/Korean, 0.25 otherwise. -/
def outlineMinConf (lang : Lang) : ℚ := if isCJKK lang then 2/10 else 25/100

/-- One iteration of the classification loop of `extract_outline`: accept the
line if its level is not BODY and its confidence exceeds the floor; the
first accepted TITLE line (while `title` is still empty) becomes the title
and is skipped (`continue`); later accepted TITLE lines are demoted to H1;
accepted lines are appended to the outline with 1-based page number; an
accepted H1 line with confidence above 0.5 also sets the title if it is
still empty. -/
def outlineStep (lang : Lang) (mat : String → ℕ → Bool) (st : OutlineState)
    (line : Line) : OutlineState :=
  let hc := classify_heading lang mat line
  if hc.1 ≠ .BODY ∧ outlineMinConf lang < hc.2 then
    if hc.1 = .TITLE ∧ st.title = "" then { st with title := line.text }
    else
      let ht := if hc.1 = .TITLE then HLevel.H1 else hc.1
      let st' := { st with
        outline := st.outline ++ [⟨ht, line.text, line.page + 1⟩] }
      if st.title = "" ∧ ht = .H1 ∧ 5/10 < hc.2 then { st' with title := line.text }
      else st'
  else st

/-- `OptimizedOCRExtractor.extract_outline`: the classification loop over the
extracted lines followed by the final title fallback (first outline entry's
text, else the file stem). -/
def extract_outline (lang : Lang) (mat : String → ℕ → Bool)
    (lines : List Line) (stem : String) : String × List OutlineItem :=
  let st := lines.foldl (outlineStep lang mat) ⟨"", []⟩
  let title :=
    if st.title = "" then
      match st.outline with
      | [] => stem
      | e :: _ => e.text
    else st.title
  (title, st.outline)

/-- A line accepted by the outline builder: non-BODY level, confidence above
the language floor. -/
def accepted (lang : Lang) (mat : String → ℕ → Bool) (line : Line) : Prop :=
  (classify_heading lang mat line).1 ≠ .BODY ∧
    outlineMinConf lang < (classify_heading lang mat line).2

instance (lang : Lang) (mat : String → ℕ → Bool) (line : Line) :
    Decidable (accepted lang mat line) := by
  unfold accepted
  infer_instance

/-- A line accepted at TITLE level. -/
def acceptedTitle (lang : Lang) (mat : String → ℕ → Bool) (line : Line) :
    Prop :=
  (classify_heading lang mat line).1 = .TITLE ∧
    outlineMinConf lang < (classify_heading lang mat line).2

instance (lang : Lang) (mat : String → ℕ → Bool) (line : Line) :
    Decidable (acceptedTitle lang mat line) := by
  unfold acceptedTitle
  infer_instance

/-- A line classified H1 with confidence above 0.5 (it captures the title
when the title is still unset). -/
def strongH1 (lang : Lang) (mat : String → ℕ → Bool) (line : Line) : Prop :=
  (classify_heading lang mat line).1 = .H1 ∧
    5/10 < (classify_heading lang mat line).2

instance (lang : Lang) (mat : String → ℕ → Bool) (line : Line) :
    Decidable (strongH1 lang mat line) := by
  unfold strongH1
  infer_instance

/-- The outline entry an accepted line contributes: its classified level
(TITLE demoted to H1), its raw text and its 1-based page number. -/
def entryOf (lang : Lang) (mat : String → ℕ → Bool) (line : Line) :
    OutlineItem :=
  ⟨if (classify_heading lang mat line).1 = .TITLE then HLevel.H1
    else (classify_heading lang mat line).1,
   line.text, line.page + 1⟩

/-- Number of accepted lines in a list. -/
def countAccepted (lang : Lang) (mat : String → ℕ → Bool)
    (lines : List Line) : ℕ :=
  lines.countP (fun l => decide (accepted lang mat l))

/-- The outline entries contributed by a list of lines that are processed
while the title is already fixed (or while no title-capturing line occurs). -/
def entriesOf (lang : Lang) (mat : String → ℕ → Bool) (lines : List Line) :
    List OutlineItem :=
  lines.filterMap
    (fun l => if accepted lang mat l then some (entryOf lang mat l) else none)

theorem entriesOf_length (lang : Lang) (mat : String → ℕ → Bool)
    (lines : List Line) :
    (entriesOf lang mat lines).length = countAccepted lang mat lines := by
  unfold entriesOf countAccepted
  induction lines with
  | nil => simp
  | cons a t ih =>
    simp only [List.filterMap_cons, List.countP_cons]
    by_cases h : accepted lang mat a
    · simp [h, ih]
    · simp [h, ih]

/-- An accepted TITLE line has nonempty text: acceptance forces a non-BODY
verdict, which the short-text early return would have prevented. -/
theorem acceptedTitle_text_ne (lang : Lang) (mat : String → ℕ → Bool)
    (line : Line) (h : acceptedTitle lang mat line) : line.text ≠ "" := by
  intro he
  have hshort : (pyStrip line.text).length < minTextLen lang := by
    rw [he]
    have h0 : (pyStrip "").length = 0 := rfl
    rw [h0]
    unfold minTextLen
    split_ifs <;> norm_num
  have hcls : classify_heading lang mat line = (.BODY, 1/10) := by
    simp only [classify_heading]
    rw [if_pos hshort]
  unfold acceptedTitle at h
  rw [hcls] at h
  exact HLevel.noConfusion h.1

/-- Folding lines that contain no accepted TITLE line and no strong H1 line,
starting from an empty title, leaves the title empty and appends exactly the
accepted lines' entries. -/
theorem foldl_outline_pre (lang : Lang) (mat : String → ℕ → Bool)
    (pre : List Line)
    (hpre : ∀ l ∈ pre, ¬ acceptedTitle lang mat l ∧ ¬ strongH1 lang mat l) :
    ∀ O : List OutlineItem,
      pre.foldl (outlineStep lang mat) ⟨"", O⟩ =
        ⟨"", O ++ entriesOf lang mat pre⟩ := by
  induction pre with
  | nil =>
    intro O
    simp [entriesOf]
  | cons a rest ih =>
    intro O
    have ha := hpre a (by simp)
    rw [List.foldl_cons]
    have hlvl : accepted lang mat a → (classify_heading lang mat a).1 ≠ .TITLE := by
      intro hacc hc
      exact ha.1 ⟨hc, hacc.2⟩
    have hstep : outlineStep lang mat ⟨"", O⟩ a =
        ⟨"", O ++ (if accepted lang mat a then [entryOf lang mat a] else [])⟩ := by
      by_cases hacc : accepted lang mat a
      · rw [if_pos hacc]
        simp only [outlineStep]
        rw [if_pos (show (classify_heading lang mat a).1 ≠ .BODY ∧
            outlineMinConf lang < (classify_heading lang mat a).2 from hacc)]
        rw [if_neg (fun hc => ha.1 ⟨hc.1, hacc.2⟩)]
        rw [if_neg (hlvl hacc)]
        rw [if_neg (fun hc => ha.2 ⟨hc.2.1, hc.2.2⟩)]
        simp only [entryOf]
        rw [if_neg (hlvl hacc)]
      · rw [if_neg hacc]
        simp only [outlineStep]
        rw [if_neg (show ¬ ((classify_heading lang mat a).1 ≠ .BODY ∧
            outlineMinConf lang < (classify_heading lang mat a).2) from
          fun hc => hacc hc)]
        simp
    rw [hstep]
    by_cases hacc : accepted lang mat a
    · rw [if_pos hacc, ih (fun l hl => hpre l (by simp [hl]))]
      simp [entriesOf, List.filterMap_cons, if_pos hacc]
    · rw [if_neg hacc, ih (fun l hl => hpre l (by simp [hl]))]
      simp [entriesOf, List.filterMap_cons, if_neg hacc]

/-- Folding any lines from a state whose title is already set (nonempty)
keeps the title and appends exactly the accepted lines' entries. -/
theorem foldl_outline_post (lang : Lang) (mat : String → ℕ → Bool)
    (post : List Line) (T : String) (hT : T ≠ "") :
    ∀ O : List OutlineItem,
      post.foldl (outlineStep lang mat) ⟨T, O⟩ =
        ⟨T, O ++ entriesOf lang mat post⟩ := by
  induction post with
  | nil =>
    intro O
    simp [entriesOf]
  | cons a rest ih =>
    intro O
    rw [List.foldl_cons]
    have hstep : outlineStep lang mat ⟨T, O⟩ a =
        ⟨T, O ++ (if accepted lang mat a then [entryOf lang mat a] else [])⟩ := by
      by_cases hacc : accepted lang mat a
      · rw [if_pos hacc]
        simp only [outlineStep]
        rw [if_pos (show (classify_heading lang mat a).1 ≠ .BODY ∧
            outlineMinConf lang < (classify_heading lang mat a).2 from hacc)]
        rw [if_neg (fun hc => hT hc.2)]
        rw [if_neg (fun hc => hT hc.1)]
        simp only [entryOf]
      · rw [if_neg hacc]
        simp only [outlineStep]
        rw [if_neg (show ¬ ((classify_heading lang mat a).1 ≠ .BODY ∧
            outlineMinConf lang < (classify_heading lang mat a).2) from
          fun hc => hacc hc)]
        simp
    rw [hstep]
    by_cases hacc : accepted lang mat a
    · rw [if_pos hacc, ih]
      simp [entriesOf, List.filterMap_cons, if_pos hacc]
    · rw [if_neg hacc, ih]
      simp [entriesOf, List.filterMap_cons, if_neg hacc]

/-- Every entry an accepted line contributes has a non-TITLE level (TITLE is
demoted to H1 on the way in). -/
theorem entryOf_level_ne_title (lang : Lang) (mat : String → ℕ → Bool)
    (line : Line) (hacc : accepted lang mat line) :
    (entryOf lang mat line).level ≠ .TITLE := by
  unfold entryOf
  by_cases h : (classify_heading lang mat line).1 = .TITLE
  · rw [if_pos h]
    exact HLevel.noConfusion
  · rw [if_neg h]
    exact h

/-- An accepted-at-TITLE line is accepted. -/
theorem acceptedTitle_accepted (lang : Lang) (mat : String → ℕ → Bool)
    (line : Line) (h : acceptedTitle lang mat line) :
    accepted lang mat line :=
  ⟨by rw [h.1]; exact fun hc => HLevel.noConfusion hc, h.2⟩

/-- Any entry present after one step of the outline loop was already there
or carries a non-TITLE level (the step appends levels with TITLE demoted
to H1). -/
theorem outlineStep_outline_sub (lang : Lang) (mat : String → ℕ → Bool)
    (s : OutlineState) (a : Line) :
    ∀ e ∈ (outlineStep lang mat s a).outline,
      e ∈ s.outline ∨ e.level ≠ .TITLE := by
  intro e he
  simp only [outlineStep] at he
  by_cases hacc : (classify_heading lang mat a).1 ≠ .BODY ∧
      outlineMinConf lang < (classify_heading lang mat a).2
  · rw [if_pos hacc] at he
    by_cases ht0 : (classify_heading lang mat a).1 = .TITLE ∧ s.title = ""
    · rw [if_pos ht0] at he
      exact Or.inl he
    · rw [if_neg ht0] at he
      have hht : (if (classify_heading lang mat a).1 = .TITLE then HLevel.H1
          else (classify_heading lang mat a).1) ≠ .TITLE := by
        by_cases hT : (classify_heading lang mat a).1 = .TITLE
        · rw [if_pos hT]
          exact fun hcc => HLevel.noConfusion hcc
        · rw [if_neg hT]
          exact hT
      have he' : e ∈ s.outline ++
          [⟨if (classify_heading lang mat a).1 = .TITLE then HLevel.H1
              else (classify_heading lang mat a).1, a.text, a.page + 1⟩] := by
        by_cases hcap : s.title = "" ∧
            (if (classify_heading lang mat a).1 = .TITLE then HLevel.H1
              else (classify_heading lang mat a).1) = .H1 ∧
            5/10 < (classify_heading lang mat a).2
        · rw [if_pos hcap] at he
          exact he
        · rw [if_neg hcap] at he
          exact he
      rcases List.mem_append.mp he' with h1 | h1
      · exact Or.inl h1
      · rw [List.mem_singleton] at h1
        rw [h1]
        exact Or.inr hht
  · rw [if_neg hacc] at he
    exact Or.inl he

/-- Unconditionally — for every input sequence and stem — no entry of the
extracted outline carries the TITLE tag. -/
theorem extract_outline_entries_ne_title (lang : Lang)
    (mat : String → ℕ → Bool) (lines : List Line) (stem : String) :
    ∀ e ∈ (extract_outline lang mat lines stem).2, e.level ≠ .TITLE := by
  have hfold : ∀ (ls : List Line) (s : OutlineState),
      (∀ e ∈ s.outline, e.level ≠ .TITLE) →
      ∀ e ∈ (ls.foldl (outlineStep lang mat) s).outline,
        e.level ≠ .TITLE := by
    intro ls
    induction ls with
    | nil =>
      intro s hs
      exact hs
    | cons a rest ih =>
      intro s hs
      rw [List.foldl_cons]
      refine ih (outlineStep lang mat s a) ?_
      intro e he
      rcases outlineStep_outline_sub lang mat s a e he with h1 | h1
      · exact hs e h1
      · exact h1
  intro e he
  have hpair : (extract_outline lang mat lines stem).2 =
      (lines.foldl (outlineStep lang mat) ⟨"", []⟩).outline := rfl
  rw [hpair] at he
  exact hfold lines ⟨"", []⟩ (fun x hx => absurd hx (List.not_mem_nil x)) e he

/-- C1 (amended): for a classified-line sequence whose first accepted
TITLE-level line `t0` is preceded by no accepted TITLE line and by no
accepted H1 line with confidence above 0.5 (such an H1 line would capture
the title first), and which contains at least one further accepted TITLE
line: `t0`'s text becomes the document title, `t0` contributes no outline
entry (the outline has exactly one entry per other accepted line), and every
other accepted TITLE line appears in the outline tagged H1; unconditionally,
on every input, no outline entry ever carries the TITLE tag. -/
theorem extract_outline_title_once_c1 (lang : Lang)
    (mat : String → ℕ → Bool) (pre post : List Line) (t0 : Line)
    (stem : String)
    (h0 : acceptedTitle lang mat t0)
    (hpre : ∀ l ∈ pre, ¬ acceptedTitle lang mat l ∧ ¬ strongH1 lang mat l)
    (hpost : ∃ t ∈ post, acceptedTitle lang mat t) :
    (extract_outline lang mat (pre ++ t0 :: post) stem).1 = t0.text ∧
    (extract_outline lang mat (pre ++ t0 :: post) stem).2.length =
      countAccepted lang mat pre + countAccepted lang mat post ∧
    (∀ t ∈ post, acceptedTitle lang mat t →
      (⟨.H1, t.text, t.page + 1⟩ : OutlineItem) ∈
        (extract_outline lang mat (pre ++ t0 :: post) stem).2) ∧
    (∀ (ls : List Line) (st : String),
      ∀ e ∈ (extract_outline lang mat ls st).2, e.level ≠ .TITLE) := by
  have hne := acceptedTitle_text_ne lang mat t0 h0
  have hfold : (pre ++ t0 :: post).foldl (outlineStep lang mat) ⟨"", []⟩ =
      ⟨t0.text, entriesOf lang mat pre ++ entriesOf lang mat post⟩ := by
    rw [List.foldl_append, foldl_outline_pre lang mat pre hpre [],
      List.foldl_cons]
    have hstep : outlineStep lang mat ⟨"", [] ++ entriesOf lang mat pre⟩ t0 =
        ⟨t0.text, [] ++ entriesOf lang mat pre⟩ := by
      simp only [outlineStep]
      rw [if_pos (show (classify_heading lang mat t0).1 ≠ .BODY ∧
          outlineMinConf lang < (classify_heading lang mat t0).2 from
        acceptedTitle_accepted lang mat t0 h0)]
      rw [if_pos ⟨h0.1, by trivial⟩]
    rw [hstep, foldl_outline_post lang mat post t0.text hne]
    simp
  have hre : extract_outline lang mat (pre ++ t0 :: post) stem =
      (t0.text, entriesOf lang mat pre ++ entriesOf lang mat post) := by
    simp only [extract_outline]
    rw [hfold]
    simp only
    rw [if_neg hne]
  refine ⟨by rw [hre], ?_, ?_, ?_⟩
  · rw [hre]
    simp only [List.length_append, entriesOf_length]
  · intro t ht hacct
    rw [hre]
    have hmem : entryOf lang mat t ∈ entriesOf lang mat post := by
      unfold entriesOf
      refine List.mem_filterMap.mpr ⟨t, ht, ?_⟩
      rw [if_pos (acceptedTitle_accepted lang mat t hacct)]
    have hent : entryOf lang mat t = ⟨.H1, t.text, t.page + 1⟩ := by
      unfold entryOf
      rw [if_pos hacct.1]
    rw [← hent]
    exact List.mem_append.mpr (Or.inr hmem)
  · intro ls st
    exact extract_outline_entries_ne_title lang mat ls st

/-! #### Concrete evaluation world for the C1 witness and counterexample -/

/-- A concrete match oracle mirroring the real English regex results under
`re.IGNORECASE` for the three texts used below. "Chapter 2. Fire!" matches
only the chapter rule at index 0 — the period and the exclamation mark are
outside both TITLE character classes (indices 8 and 9), no other anchored
rule fits its first characters, and it contains none of the content
keywords of indices 10 and 11. The two all-caps texts match exactly the two
TITLE rules at indices 8 and 9 (every character is in both classes and
their lengths exceed both minimums) and nothing else. -/
def matC1 (t : String) (i : ℕ) : Bool :=
  if t = "Chapter 2. Fire!" then i == 0
  else if t = "FIRST GRAND TITLE" ∨ t = "SECOND GRAND TITLE" then
    i == 8 || i == 9
  else false

/-- The chapter-rule line of the counterexample: a strong H1 (confidence
0.9 > 0.5) that precedes the TITLE lines. -/
def chapLine : Line := ⟨"Chapter 2. Fire!", 0, 12, false, false, .ocr⟩

/-- First all-caps TITLE line of the counterexample sequence. -/
def t1Line : Line := ⟨"FIRST GRAND TITLE", 0, 12, false, false, .ocr⟩

/-- Second all-caps TITLE line of the counterexample sequence. -/
def t2Line : Line := ⟨"SECOND GRAND TITLE", 0, 12, false, false, .ocr⟩

theorem matC1_chap_only (j : ℕ) (h : matC1 "Chapter 2. Fire!" j = true) :
    j = 0 := by
  unfold matC1 at h
  rw [if_pos rfl] at h
  simp only [beq_iff_eq] at h
  exact h

theorem matC1_t1_only (j : ℕ) (h : matC1 "FIRST GRAND TITLE" j = true) :
    j = 8 ∨ j = 9 := by
  unfold matC1 at h
  rw [if_neg (by decide), if_pos (Or.inl rfl)] at h
  rw [Bool.or_eq_true] at h
  simp only [beq_iff_eq] at h
  exact h

theorem matC1_t2_only (j : ℕ) (h : matC1 "SECOND GRAND TITLE" j = true) :
    j = 8 ∨ j = 9 := by
  unfold matC1 at h
  rw [if_neg (by decide), if_pos (Or.inr rfl)] at h
  rw [Bool.or_eq_true] at h
  simp only [beq_iff_eq] at h
  exact h

/-- A plain 12pt, non-bold, non-centered OCR line gets no formatting boost,
so a TITLE- or H1-level rule scores exactly its base. -/
theorem ruleScore_plain12 (line : Line) (hb : line.is_bold = false)
    (hc : line.is_centered = false) (hm : line.method = .ocr)
    (hf : line.font_size = 12) (r : Rule)
    (hlvl : fontThreshold r.level = 14 ∨ fontThreshold r.level = 16)
    (hbase : r.base ≤ 98/100) :
    ruleScore line r = r.base := by
  simp only [ruleScore]
  rw [if_neg (by rw [hm]; exact fun hcc => Method.noConfusion hcc)]
  rw [if_neg (fun hcc => by rw [hc] at hcc; exact Bool.false_ne_true hcc.1)]
  rw [if_neg (by rcases hlvl with h | h <;> rw [h, hf] <;> norm_num)]
  rw [if_neg (by rw [hb]; exact Bool.false_ne_true)]
  exact min_eq_right hbase

theorem scan_matC1_chap :
    scanRules .english matC1 chapLine "Chapter 2. Fire!" = (.H1, 9/10) := by
  have h0 : (heading_patterns .english).get? 0 = some ⟨.H1, 9/10⟩ := rfl
  have hs0 : ruleScore chapLine (⟨.H1, 9/10⟩ : Rule) = 9/10 :=
    ruleScore_plain12 _ rfl rfl rfl rfl _ (Or.inl rfl) (by norm_num)
  rcases scanGo_spec matC1 chapLine "Chapter 2. Fire!"
      (heading_patterns .english) 0
      (.BODY, 0) with ⟨_, hbd⟩ | ⟨i, r, hget, hmat, heq, _, _, _⟩
  · exfalso
    have hz := hbd 0 ⟨.H1, 9/10⟩ h0 (by decide)
    rw [hs0] at hz
    simp only at hz
    linarith
  · have hi : i = 0 := matC1_chap_only i (by simpa using hmat)
    subst hi
    rw [h0] at hget
    injection hget with hr
    show scanGo matC1 chapLine "Chapter 2. Fire!" 0 (heading_patterns .english)
      (.BODY, 0) = (.H1, 9/10)
    rw [heq, ← hr, hs0]

theorem scan_matC1_t1 :
    scanRules .english matC1 t1Line "FIRST GRAND TITLE" = (.TITLE, 7/10) := by
  have h8 : (heading_patterns .english).get? 8 = some ⟨.TITLE, 7/10⟩ := rfl
  have h9 : (heading_patterns .english).get? 9 = some ⟨.TITLE, 6/10⟩ := rfl
  have hs8 : ruleScore t1Line (⟨.TITLE, 7/10⟩ : Rule) = 7/10 :=
    ruleScore_plain12 _ rfl rfl rfl rfl _ (Or.inr rfl) (by norm_num)
  have hs9 : ruleScore t1Line (⟨.TITLE, 6/10⟩ : Rule) = 6/10 :=
    ruleScore_plain12 _ rfl rfl rfl rfl _ (Or.inr rfl) (by norm_num)
  rcases scanGo_spec matC1 t1Line "FIRST GRAND TITLE"
      (heading_patterns .english) 0 (.BODY, 0) with
    ⟨_, hbd⟩ | ⟨i, r, hget, hmat, heq, _, hbefore, _⟩
  · exfalso
    have hz := hbd 8 ⟨.TITLE, 7/10⟩ h8 (by decide)
    rw [hs8] at hz
    simp only at hz
    linarith
  · rcases matC1_t1_only i (by simpa using hmat) with hi | hi
    · subst hi
      rw [h8] at hget
      injection hget with hr
      show scanGo matC1 t1Line "FIRST GRAND TITLE" 0
        (heading_patterns .english) (.BODY, 0) = (.TITLE, 7/10)
      rw [heq, ← hr, hs8]
    · exfalso
      subst hi
      rw [h9] at hget
      injection hget with hr
      have hz := hbefore 8 ⟨.TITLE, 7/10⟩ (by omega) h8 (by decide)
      rw [hs8, ← hr, hs9] at hz
      linarith


theorem scan_matC1_t2 :
    scanRules .english matC1 t2Line "SECOND GRAND TITLE" = (.TITLE, 7/10) := by
  have h8 : (heading_patterns .english).get? 8 = some ⟨.TITLE, 7/10⟩ := rfl
  have h9 : (heading_patterns .english).get? 9 = some ⟨.TITLE, 6/10⟩ := rfl
  have hs8 : ruleScore t2Line (⟨.TITLE, 7/10⟩ : Rule) = 7/10 :=
    ruleScore_plain12 _ rfl rfl rfl rfl _ (Or.inr rfl) (by norm_num)
  have hs9 : ruleScore t2Line (⟨.TITLE, 6/10⟩ : Rule) = 6/10 :=
    ruleScore_plain12 _ rfl rfl rfl rfl _ (Or.inr rfl) (by norm_num)
  rcases scanGo_spec matC1 t2Line "SECOND GRAND TITLE"
      (heading_patterns .english) 0 (.BODY, 0) with
    ⟨_, hbd⟩ | ⟨i, r, hget, hmat, heq, _, hbefore, _⟩
  · exfalso
    have hz := hbd 8 ⟨.TITLE, 7/10⟩ h8 (by decide)
    rw [hs8] at hz
    simp only at hz
    linarith
  · rcases matC1_t2_only i (by simpa using hmat) with hi | hi
    · subst hi
      rw [h8] at hget
      injection hget with hr
      show scanGo matC1 t2Line "SECOND GRAND TITLE" 0
        (heading_patterns .english) (.BODY, 0) = (.TITLE, 7/10)
      rw [heq, ← hr, hs8]
    · exfalso
      subst hi
      rw [h9] at hget
      injection hget with hr
      have hz := hbefore 8 ⟨.TITLE, 7/10⟩ (by omega) h8 (by decide)
      rw [hs8, ← hr, hs9] at hz
      linarith

theorem classify_matC1_chap :
    classify_heading .english matC1 chapLine = (.H1, 9/10) := by
  have hstrip : pyStrip chapLine.text = "Chapter 2. Fire!" := by decide
  simp only [classify_heading]
  rw [hstrip]
  rw [if_neg (by decide), if_neg (by decide), scan_matC1_chap,
    if_neg (by norm_num)]

theorem classify_matC1_t1 :
    classify_heading .english matC1 t1Line = (.TITLE, 7/10) := by
  have hstrip : pyStrip t1Line.text = "FIRST GRAND TITLE" := by decide
  simp only [classify_heading]
  rw [hstrip]
  rw [if_neg (by decide), if_neg (by decide), scan_matC1_t1,
    if_neg (by norm_num)]

theorem classify_matC1_t2 :
    classify_heading .english matC1 t2Line = (.TITLE, 7/10) := by
  have hstrip : pyStrip t2Line.text = "SECOND GRAND TITLE" := by decide
  simp only [classify_heading]
  rw [hstrip]
  rw [if_neg (by decide), if_neg (by decide), scan_matC1_t2,
    if_neg (by norm_num)]

theorem acceptedTitle_t1 : acceptedTitle .english matC1 t1Line := by
  unfold acceptedTitle
  rw [classify_matC1_t1]
  exact ⟨rfl, by norm_num [outlineMinConf, isCJKK]⟩

theorem acceptedTitle_t2 : acceptedTitle .english matC1 t2Line := by
  unfold acceptedTitle
  rw [classify_matC1_t2]
  exact ⟨rfl, by norm_num [outlineMinConf, isCJKK]⟩

/-- Witness for `extract_outline_title_once_c1`: with no preceding strong H1
line, the first all-caps TITLE line becomes the title, is not added to the
outline, and the second one appears in the outline tagged H1. -/
theorem extract_outline_title_once_c1_witness :
    (extract_outline .english matC1 [t1Line, t2Line] "doc").1 = t1Line.text ∧
    (extract_outline .english matC1 [t1Line, t2Line] "doc").2.length =
      countAccepted .english matC1 [] + countAccepted .english matC1 [t2Line] ∧
    (∀ t ∈ [t2Line], acceptedTitle .english matC1 t →
      (⟨.H1, t.text, t.page + 1⟩ : OutlineItem) ∈
        (extract_outline .english matC1 [t1Line, t2Line] "doc").2) ∧
    (∀ (ls : List Line) (st : String),
      ∀ e ∈ (extract_outline .english matC1 ls st).2, e.level ≠ .TITLE) :=
  extract_outline_title_once_c1 .english matC1 [] [t2Line] t1Line "doc"
    acceptedTitle_t1 (fun l hl => absurd hl (List.not_mem_nil l))
    ⟨t2Line, List.mem_singleton.mpr rfl, acceptedTitle_t2⟩

theorem outlineStep_cex_1 :
    outlineStep .english matC1 ⟨"", []⟩ chapLine =
      ⟨"Chapter 2. Fire!", [⟨.H1, "Chapter 2. Fire!", 1⟩]⟩ := by
  simp only [outlineStep, classify_matC1_chap]
  rw [if_pos (show HLevel.H1 ≠ HLevel.BODY ∧
      outlineMinConf .english < 9/10 from
    ⟨by decide, by norm_num [outlineMinConf, isCJKK]⟩)]
  rw [if_neg (show ¬ (HLevel.H1 = HLevel.TITLE ∧ True) from
    fun hc => absurd hc.1 (by decide))]
  rw [if_neg (show ¬ (HLevel.H1 = HLevel.TITLE) from by decide)]
  rw [if_pos (show True ∧ HLevel.H1 = HLevel.H1 ∧ (5:ℚ)/10 < 9/10 from
    ⟨trivial, rfl, by norm_num⟩)]
  rfl

theorem entryOf_t1 :
    entryOf .english matC1 t1Line = ⟨.H1, "FIRST GRAND TITLE", 1⟩ := by
  unfold entryOf
  rw [classify_matC1_t1]
  rw [if_pos (show ((HLevel.TITLE, (7:ℚ)/10) : HLevel × ℚ).1 = HLevel.TITLE
    from rfl)]
  rfl

theorem entryOf_t2 :
    entryOf .english matC1 t2Line = ⟨.H1, "SECOND GRAND TITLE", 1⟩ := by
  unfold entryOf
  rw [classify_matC1_t2]
  rw [if_pos (show ((HLevel.TITLE, (7:ℚ)/10) : HLevel × ℚ).1 = HLevel.TITLE
    from rfl)]
  rfl

theorem entriesOf_cex :
    entriesOf .english matC1 [t1Line, t2Line] =
      [⟨.H1, "FIRST GRAND TITLE", 1⟩, ⟨.H1, "SECOND GRAND TITLE", 1⟩] := by
  have hf1 : (fun l => if accepted .english matC1 l then
      some (entryOf .english matC1 l) else none) t1Line =
      some ⟨.H1, "FIRST GRAND TITLE", 1⟩ := by
    simp only
    rw [if_pos (acceptedTitle_accepted _ _ _ acceptedTitle_t1), entryOf_t1]
  have hf2 : (fun l => if accepted .english matC1 l then
      some (entryOf .english matC1 l) else none) t2Line =
      some ⟨.H1, "SECOND GRAND TITLE", 1⟩ := by
    simp only
    rw [if_pos (acceptedTitle_accepted _ _ _ acceptedTitle_t2), entryOf_t2]
  unfold entriesOf
  rw [@List.filterMap_cons_some _ _
    (fun l => if accepted .english matC1 l then
      some (entryOf .english matC1 l) else none) t1Line [t2Line] _ hf1]
  rw [@List.filterMap_cons_some _ _
    (fun l => if accepted .english matC1 l then
      some (entryOf .english matC1 l) else none) t2Line [] _ hf2]
  rw [List.filterMap_nil]

theorem extract_outline_cex_eval :
    extract_outline .english matC1 [chapLine, t1Line, t2Line] "doc" =
      ("Chapter 2. Fire!", [⟨.H1, "Chapter 2. Fire!", 1⟩,
        ⟨.H1, "FIRST GRAND TITLE", 1⟩,
        ⟨.H1, "SECOND GRAND TITLE", 1⟩]) := by
  simp only [extract_outline]
  rw [List.foldl_cons, outlineStep_cex_1,
    foldl_outline_post .english matC1 [t1Line, t2Line] "Chapter 2. Fire!"
      (by decide) [⟨.H1, "Chapter 2. Fire!", 1⟩],
    entriesOf_cex]
  rw [if_neg (by decide)]
  rfl

/-- Counterexample to C1 as frozen: in the sequence
[Chapter 2. Fire! (H1, 0.9), FIRST GRAND TITLE (TITLE, 0.7),
SECOND GRAND TITLE (TITLE, 0.7)] the two TITLE lines are both independently
accepted, yet neither contributes to the title (the H1 line with confidence
above 0.5 captured it first), and the FIRST accepted TITLE line IS added to
the outline (tagged H1), contradicting "the first accepted TITLE line
becomes the document title and is not added to the outline". -/
theorem extract_outline_title_once_c1_cex :
    acceptedTitle .english matC1 t1Line ∧
    acceptedTitle .english matC1 t2Line ∧
    ¬ acceptedTitle .english matC1 chapLine ∧
    (extract_outline .english matC1 [chapLine, t1Line, t2Line] "doc").1 ≠
      t1Line.text ∧
    (⟨.H1, t1Line.text, 1⟩ : OutlineItem) ∈
      (extract_outline .english matC1 [chapLine, t1Line, t2Line] "doc").2 := by
  refine ⟨acceptedTitle_t1, acceptedTitle_t2, ?_, ?_, ?_⟩
  · intro h
    unfold acceptedTitle at h
    rw [classify_matC1_chap] at h
    exact HLevel.noConfusion h.1
  · rw [extract_outline_cex_eval]
    decide
  · rw [extract_outline_cex_eval]
    simp only [List.mem_cons]
    exact Or.inr (Or.inl rfl)

/-! ### OCR word grouping and line finalization
(`_group_words_into_lines` and `_finalize_line`, extractor.py lines 263-372) -/

/-- Model of Python `str.join`: `pyJoin sep parts` interleaves `sep` between
the parts (`"".join` is plain concatenation). -/
def pyJoin (sep : String) : List String → String
  | [] => ""
  | [x] => x
  | x :: xs => x ++ sep ++ pyJoin sep xs

/-- Model of Python `str.isupper` (ASCII letters): at least one uppercase
letter and no lowercase letter. -/
def pyIsUpper (s : String) : Bool :=
  s.data.any (fun c => c.isUpper) && !s.data.any (fun c => c.isLower)

/-- `OptimizedOCRExtractor._estimate_font_size`:
`max(8, min(28, height * 0.8))`. -/
def estimate_font_size (height : ℕ) : ℚ :=
  max 8 (min 28 ((height : ℚ) * 8/10))

/-- `OptimizedOCRExtractor._detect_bold_text`: a heading-pattern `re.match`
(oracle `matm`), a font size above 14, or (English only) an all-caps text
longer than 3 characters. -/
def detect_bold_text (lang : Lang) (matm : String → ℕ → Bool)
    (text : String) (font_size : ℚ) : Bool :=
  if (List.range (heading_patterns lang).length).any
      (fun i => matm text i) then true
  else if 14 < font_size then true
  else if lang = .english then
    if pyIsUpper text ∧ 3 < text.length then true else false
  else false

/-- `OptimizedOCRExtractor._is_text_centered`: the x position lies within a
30%-of-width zone around the page center. -/
def is_text_centered (x_pos : ℚ) (page_width : ℚ) : Bool :=
  |x_pos - page_width / 2| < page_width * 3/10

/-- The `current_line` dictionary of `_group_words_into_lines`: word list,
optional bounding box `[x, y, w, h]`, confidence list. -/
structure LineData where
  words : List String
  bbox : Option (ℕ × ℕ × ℕ × ℕ)
  confidences : List ℤ
deriving DecidableEq, Repr

/-- An OCR line produced by `_finalize_line`: the line metadata plus the
average word confidence recorded in the returned dictionary. -/
structure OcrOutLine where
  line : Line
  confidence : ℚ
deriving DecidableEq, Repr

/-- `OptimizedOCRExtractor._finalize_line`: join the words (concatenatively
for Japanese/Chinese, with spaces otherwise — note Korean is NOT in the
concatenation list), compute the average confidence, drop the line if the
joined text is too short (< 1 CJK/Korean, < 2 otherwise) or the average
confidence is below the floor (20 CJK/Korean, 25 otherwise), and otherwise
estimate formatting from the bounding box.  (A `none` bounding box cannot
occur for a nonempty word list in the grouping loop; Python would raise on
it, modelled here as `none`.) -/
def finalize_line (lang : Lang) (matm : String → ℕ → Bool)
    (line_data : LineData) (page_num : ℕ) (page_width : ℚ) :
    Option OcrOutLine :=
  let text := if isConcatLang lang then pyJoin "" line_data.words
    else pyJoin " " line_data.words
  let avg_confidence : ℚ :=
    (line_data.confidences.sum : ℚ) / (line_data.confidences.length : ℚ)
  let min_length : ℕ := if isCJKK lang then 1 else 2
  let min_conf : ℚ := if isCJKK lang then 20 else 25
  if text.length < min_length ∨ avg_confidence < min_conf then none
  else
    line_data.bbox.map (fun bb =>
      let font_size := estimate_font_size bb.2.2.2
      let is_bold := detect_bold_text lang matm text font_size
      let is_centered := is_text_centered (bb.1 : ℚ) page_width
      ⟨⟨text, page_num, font_size, is_bold, is_centered, .ocr⟩,
        avg_confidence⟩)

/-- One raw OCR word tuple (`ocr_data["text"/"conf"/"left"/"top"/"width"/
"height"][i]`). -/
structure OcrWord where
  text : String
  conf : ℤ
  left : ℕ
  top : ℕ
  width : ℕ
  height : ℕ
deriving DecidableEq, Repr

/-- One iteration of the loop of `_group_words_into_lines`: skip the word if
its stripped text is empty or its confidence is not above the floor (20
CJK/Korean, 30 otherwise); otherwise scale its box by the zoom factor and
either join the current line (first word, or top within the tolerance of the
line's first-word top: 15 CJK/Korean, 12 otherwise, extending the bounding
box) or finalize the current line and start a new one from this word. -/
def groupStep (lang : Lang) (matm : String → ℕ → Bool) (page_num : ℕ)
    (page_width : ℚ) (zoom : ℕ)
    (st : List OcrOutLine × LineData) (w : OcrWord) :
    List OcrOutLine × LineData :=
  let word := pyStrip w.text
  let min_confidence : ℤ := if isCJKK lang then 20 else 30
  if word ≠ "" ∧ min_confidence < w.conf then
    let x := w.left / zoom
    let y := w.top / zoom
    let wd := w.width / zoom
    let h := w.height / zoom
    let y_tolerance : ℕ := if isCJKK lang then 15 else 12
    st.2.bbox.elim
      (st.1, ⟨st.2.words ++ [word], some (x, y, wd, h),
        st.2.confidences ++ [w.conf]⟩)
      (fun bb =>
        if Nat.dist y bb.2.1 < y_tolerance then
          (st.1, ⟨st.2.words ++ [word],
            some (bb.1, bb.2.1, max (bb.1 + bb.2.2.1) (x + wd) - bb.1,
              max bb.2.2.2 h),
            st.2.confidences ++ [w.conf]⟩)
        else
          let acc' := st.1 ++
            (if st.2.words ≠ [] then
              (finalize_line lang matm st.2 page_num page_width).toList
             else [])
          (acc', ⟨[word], some (x, y, wd, h), [w.conf]⟩))
  else st

/-- `OptimizedOCRExtractor._group_words_into_lines`: fold the words through
`groupStep` and finalize the last line if nonempty. -/
def group_words_into_lines (lang : Lang) (matm : String → ℕ → Bool)
    (words : List OcrWord) (page_num : ℕ) (page_width : ℚ) (zoom : ℕ) :
    List OcrOutLine :=
  let st := words.foldl (groupStep lang matm page_num page_width zoom)
    ([], ⟨[], none, []⟩)
  st.1 ++
    (if st.2.words ≠ [] then
      (finalize_line lang matm st.2 page_num page_width).toList
     else [])

/-- The joined text of any line `_finalize_line` returns: `"".join` for the
concatenative languages, `" ".join` otherwise. -/
theorem finalize_line_text (lang : Lang) (matm : String → ℕ → Bool)
    (ld : LineData) (pn : ℕ) (pw : ℚ) (l : OcrOutLine)
    (h : finalize_line lang matm ld pn pw = some l) :
    l.line.text =
      (if isConcatLang lang then pyJoin "" ld.words
       else pyJoin " " ld.words) := by
  simp only [finalize_line] at h
  by_cases hcond : (if isConcatLang lang then pyJoin "" ld.words
      else pyJoin " " ld.words).length < (if isCJKK lang then 1 else 2) ∨
      (ld.confidences.sum : ℚ) / (ld.confidences.length : ℚ) <
        (if isCJKK lang then (20 : ℚ) else 25)
  · rw [if_pos hcond] at h
    exact Option.noConfusion h
  · rw [if_neg hcond] at h
    rcases hbb : ld.bbox with _ | bb
    · rw [hbb] at h
      exact Option.noConfusion h
    · rw [hbb] at h
      simp only [Option.map_some'] at h
      injection h with h
      subst h
      rfl

/-- Evaluation form: when the line survives the length and confidence
filters and the bounding box is present, the text field of the result is the
joined word list. -/
theorem finalize_line_map_text (lang : Lang) (matm : String → ℕ → Bool)
    (ld : LineData) (pn : ℕ) (pw : ℚ) (bb : ℕ × ℕ × ℕ × ℕ)
    (hbb : ld.bbox = some bb)
    (hcond : ¬ ((if isConcatLang lang then pyJoin "" ld.words
        else pyJoin " " ld.words).length < (if isCJKK lang then 1 else 2) ∨
      (ld.confidences.sum : ℚ) / (ld.confidences.length : ℚ) <
        (if isCJKK lang then (20 : ℚ) else 25))) :
    (finalize_line lang matm ld pn pw).map (fun l => l.line.text) =
      some (if isConcatLang lang then pyJoin "" ld.words
        else pyJoin " " ld.words) := by
  simp only [finalize_line]
  rw [if_neg hcond, hbb]
  simp only [Option.map_some']

/-- C2 (amended): under the Korean profile `_finalize_line` joins the words
of a finalized line with spaces (`" ".join`), NOT concatenatively; only the
Japanese and Chinese profiles concatenate (`"".join`). -/
theorem finalize_line_join_c2 (matm : String → ℕ → Bool) (ld : LineData)
    (pn : ℕ) (pw : ℚ) :
    (∀ l, finalize_line .korean matm ld pn pw = some l →
      l.line.text = pyJoin " " ld.words) ∧
    (∀ l, finalize_line .japanese matm ld pn pw = some l →
      l.line.text = pyJoin "" ld.words) ∧
    (∀ l, finalize_line .chinese_simplified matm ld pn pw = some l →
      l.line.text = pyJoin "" ld.words) ∧
    (∀ l, finalize_line .chinese_traditional matm ld pn pw = some l →
      l.line.text = pyJoin "" ld.words) := by
  refine ⟨?_, ?_, ?_, ?_⟩ <;> intro l h <;>
    rw [finalize_line_text _ matm ld pn pw l h] <;>
    simp [isConcatLang]

/-- The concrete Korean line data used for the C2 counterexample. -/
def koreanLD : LineData := ⟨["ab", "cd"], some (0, 0, 10, 10), [90]⟩

theorem finalize_korean_survives :
    ¬ ((if isConcatLang .korean then pyJoin "" koreanLD.words
        else pyJoin " " koreanLD.words).length <
          (if isCJKK .korean then 1 else 2) ∨
      (koreanLD.confidences.sum : ℚ) / (koreanLD.confidences.length : ℚ) <
        (if isCJKK .korean then (20 : ℚ) else 25)) := by
  refine not_or.mpr ⟨by decide, ?_⟩
  show ¬ ((koreanLD.confidences.sum : ℚ) / (koreanLD.confidences.length : ℚ) <
    (if isCJKK .korean then (20 : ℚ) else 25))
  have h1 : koreanLD.confidences.sum = 90 := by decide
  have h2 : koreanLD.confidences.length = 1 := by decide
  rw [h1, h2]
  norm_num [isCJKK]

/-- Counterexample to C2 as frozen: under the Korean profile the words
["ab", "cd"] are finalized into the line text "ab cd" (space-joined), not
the concatenation "abcd" that the claim asserts. -/
theorem finalize_line_join_c2_cex :
    (finalize_line .korean matNone koreanLD 0 100).map
      (fun l => l.line.text) = some "ab cd" ∧
    ("ab cd" : String) ≠ "abcd" := by
  refine ⟨?_, by decide⟩
  rw [finalize_line_map_text .korean matNone koreanLD 0 100 (0, 0, 10, 10)
    rfl finalize_korean_survives]
  decide

/-- Witness for `finalize_line_join_c2`: the Korean conjunct applied to the
concrete finalized line. -/
theorem finalize_line_join_c2_witness :
    ∃ l, finalize_line .korean matNone koreanLD 0 100 = some l ∧
      l.line.text = pyJoin " " koreanLD.words := by
  have hmap := finalize_line_map_text .korean matNone koreanLD 0 100
    (0, 0, 10, 10) rfl finalize_korean_survives
  obtain ⟨l, hl, _⟩ := Option.map_eq_some'.mp hmap
  exact ⟨l, hl, (finalize_line_join_c2 matNone koreanLD 0 100).1 l hl⟩

/-! ### Spec-side description of the grouping loop (for claim C3) -/

/-- A word after stripping and coordinate scaling, as the grouping loop sees
it. -/
structure ScaledWord where
  word : String
  conf : ℤ
  x : ℕ
  y : ℕ
  w : ℕ
  h : ℕ
deriving DecidableEq, Repr

/-- Strip the word text and scale the box coordinates by the zoom factor. -/
def scaleWord (zoom : ℕ) (w : OcrWord) : ScaledWord :=
  ⟨pyStrip w.text, w.conf, w.left / zoom, w.top / zoom, w.width / zoom,
   w.height / zoom⟩

/-- A word is retained when its stripped text is nonempty and its confidence
is strictly above the language floor. -/
def keepWord (lang : Lang) (sw : ScaledWord) : Bool :=
  decide (sw.word ≠ "" ∧ (if isCJKK lang then (20 : ℤ) else 30) < sw.conf)

/-- Chunk the retained words: a word joins the current chunk when its top is
within the tolerance of the chunk's FIRST word's top, else it starts a new
chunk. -/
def chunkGo (tol : ℕ) (cur : List ScaledWord) (first : ScaledWord) :
    List ScaledWord → List (List ScaledWord)
  | [] => [cur]
  | w :: ws =>
      if Nat.dist w.y first.y < tol then chunkGo tol (cur ++ [w]) first ws
      else cur :: chunkGo tol [w] w ws

/-- Chunk a retained word list from scratch. -/
def chunkBy (tol : ℕ) : List ScaledWord → List (List ScaledWord)
  | [] => []
  | w :: ws => chunkGo tol [w] w ws

/-- The bounding box of a chunk: first word's left and top; width up to the
maximal right edge; maximal height. -/
def chunkBBox : List ScaledWord → Option (ℕ × ℕ × ℕ × ℕ)
  | [] => none
  | w :: ws => some (w.x, w.y,
      (ws.foldl (fun r v => max r (v.x + v.w)) (w.x + w.w)) - w.x,
      ws.foldl (fun m v => max m v.h) w.h)

/-- The `current_line` data a chunk induces. -/
def lineDataOf (ch : List ScaledWord) : LineData :=
  ⟨ch.map (fun v => v.word), chunkBBox ch, ch.map (fun v => v.conf)⟩

/-- Spec-side grouping (the amended C3): drop the words failing the keep
filter entirely, chunk the retained ones on the first-word-top tolerance,
and finalize each chunk. -/
def specGroup (lang : Lang) (matm : String → ℕ → Bool)
    (words : List OcrWord) (pn : ℕ) (pw : ℚ) (zoom : ℕ) :
    List OcrOutLine :=
  ((chunkBy (if isCJKK lang then 15 else 12)
      ((words.map (scaleWord zoom)).filter (keepWord lang))).map
    lineDataOf).filterMap (fun ld => finalize_line lang matm ld pn pw)

/-- The initial value of a running maximum bounds the result below. -/
theorem foldl_max_ge_init {α : Type} (f : α → ℕ) (l : List α) (init : ℕ) :
    init ≤ l.foldl (fun r v => max r (f v)) init := by
  induction l generalizing init with
  | nil => exact le_refl _
  | cons a t ih =>
    rw [List.foldl_cons]
    exact le_trans (le_max_left _ _) (ih _)

/-- Extending a chunk's line data by one retained word matches the
incremental bounding-box extension of the grouping loop. -/
theorem lineDataOf_extend (first : ScaledWord) (rest : List ScaledWord)
    (word : String) (conf : ℤ) (x y wd h : ℕ) :
    (⟨(first :: rest).map (fun v => v.word) ++ [word],
      some (first.x, first.y,
        max (first.x +
          ((rest.foldl (fun r v => max r (v.x + v.w)) (first.x + first.w)) -
            first.x)) (x + wd) - first.x,
        max (rest.foldl (fun m v => max m v.h) first.h) h),
      (first :: rest).map (fun v => v.conf) ++ [conf]⟩ : LineData) =
    lineDataOf (first :: (rest ++ [⟨word, conf, x, y, wd, h⟩])) := by
  have hM : first.x ≤
      rest.foldl (fun r v => max r (v.x + v.w)) (first.x + first.w) :=
    le_trans (Nat.le_add_right _ _) (foldl_max_ge_init _ _ _)
  simp only [lineDataOf, chunkBBox, List.map_cons, List.map_append,
    List.map_nil, List.foldl_append, List.foldl_cons, List.foldl_nil,
    List.cons_append]
  rw [Nat.add_sub_cancel' hM]

/-- A fresh single-word chunk's line data. -/
theorem lineDataOf_single (word : String) (conf : ℤ) (x y wd h : ℕ) :
    (⟨[word], some (x, y, wd, h), [conf]⟩ : LineData) =
    lineDataOf [⟨word, conf, x, y, wd, h⟩] := by
  simp [lineDataOf, chunkBBox]

/-- Main refinement lemma for the grouping loop: from any state holding a
nonempty current chunk, the loop produces exactly the finalized chunks of
the spec-side chunking of the remaining retained words. -/
theorem groupFold_chunk (lang : Lang) (matm : String → ℕ → Bool) (pn : ℕ)
    (pw : ℚ) (zoom : ℕ) :
    ∀ (ws : List OcrWord) (acc : List OcrOutLine) (first : ScaledWord)
      (rest : List ScaledWord),
      ((ws.foldl (groupStep lang matm pn pw zoom)
          (acc, lineDataOf (first :: rest))).1 ++
        (if (ws.foldl (groupStep lang matm pn pw zoom)
            (acc, lineDataOf (first :: rest))).2.words ≠ [] then
          (finalize_line lang matm
            (ws.foldl (groupStep lang matm pn pw zoom)
              (acc, lineDataOf (first :: rest))).2 pn pw).toList
         else [])) =
      acc ++ ((chunkGo (if isCJKK lang then 15 else 12) (first :: rest) first
          ((ws.map (scaleWord zoom)).filter (keepWord lang))).map
        lineDataOf).filterMap (fun ld => finalize_line lang matm ld pn pw) := by
  intro ws
  induction ws with
  | nil =>
    intro acc first rest
    simp only [List.foldl_nil, List.map_nil, List.filter_nil, chunkGo,
      List.map_cons, List.filterMap_cons]
    rw [if_pos (show (lineDataOf (first :: rest)).words ≠ [] by
      simp [lineDataOf])]
    cases hf : finalize_line lang matm (lineDataOf (first :: rest)) pn pw with
    | none => simp [hf]
    | some l => simp [hf]
  | cons w ws' ih =>
    intro acc first rest
    rw [List.foldl_cons, List.map_cons, List.filter_cons]
    by_cases hk : keepWord lang (scaleWord zoom w) = true
    · rw [if_pos hk]
      have hkP : ¬ pyStrip w.text = "" ∧
          (if isCJKK lang then (20 : ℤ) else 30) < w.conf := by
        simpa [keepWord, scaleWord] using hk
      by_cases hd : Nat.dist (w.top / zoom) first.y <
          (if isCJKK lang then 15 else 12)
      · have hstep : groupStep lang matm pn pw zoom
            (acc, lineDataOf (first :: rest)) w =
            (acc, lineDataOf (first ::
              (rest ++ [⟨pyStrip w.text, w.conf, w.left / zoom, w.top / zoom,
                w.width / zoom, w.height / zoom⟩]))) := by
          simp only [groupStep, lineDataOf, chunkBBox]
          rw [if_pos hkP]
          simp only [Option.elim_some]
          rw [if_pos hd]
          have hM : first.x ≤
              rest.foldl (fun r v => max r (v.x + v.w)) (first.x + first.w) :=
            le_trans (Nat.le_add_right _ _) (foldl_max_ge_init _ _ _)
          simp only [List.map_cons, List.map_append, List.map_nil,
            List.foldl_append, List.foldl_cons, List.foldl_nil,
            List.cons_append, Nat.add_sub_cancel' hM]
        rw [hstep]
        have hd' : Nat.dist (scaleWord zoom w).y first.y <
            (if isCJKK lang then 15 else 12) := hd
        simp only [chunkGo]
        rw [if_pos hd', List.cons_append]
        exact ih acc first (rest ++ [scaleWord zoom w])
      · have hstep : groupStep lang matm pn pw zoom
            (acc, lineDataOf (first :: rest)) w =
            (acc ++ (finalize_line lang matm (lineDataOf (first :: rest))
              pn pw).toList,
             lineDataOf [⟨pyStrip w.text, w.conf, w.left / zoom,
               w.top / zoom, w.width / zoom, w.height / zoom⟩]) := by
          simp only [groupStep, lineDataOf, chunkBBox]
          rw [if_pos hkP]
          simp only [Option.elim_some]
          rw [if_neg hd]
          rw [if_pos (show ¬ ((first :: rest).map (fun v => v.word)) = []
            by simp)]
          simp only [List.map_cons, List.map_nil, List.foldl_nil,
            Nat.add_sub_cancel_left]
        rw [hstep]
        have hd' : ¬ Nat.dist (scaleWord zoom w).y first.y <
            (if isCJKK lang then 15 else 12) := hd
        simp only [chunkGo]
        rw [if_neg hd']
        simp only [List.map_cons]
        cases hf : finalize_line lang matm (lineDataOf (first :: rest))
            pn pw with
        | none =>
          rw [@List.filterMap_cons_none _ _
            (fun ld => finalize_line lang matm ld pn pw) _ _ hf]
          have htl : (none : Option OcrOutLine).toList = [] := rfl
          rw [htl, List.append_nil]
          exact ih acc (scaleWord zoom w) []
        | some l =>
          rw [@List.filterMap_cons_some _ _
            (fun ld => finalize_line lang matm ld pn pw) _ _ _ hf]
          have htl : (some l).toList = [l] := rfl
          rw [htl]
          have hih := ih (acc ++ [l]) (scaleWord zoom w) []
          rw [List.append_assoc, List.singleton_append] at hih
          exact hih
    · rw [if_neg hk]
      have hkP : ¬ (¬ pyStrip w.text = "" ∧
          (if isCJKK lang then (20 : ℤ) else 30) < w.conf) := by
        intro hc
        exact hk (by simpa [keepWord, scaleWord] using hc)
      have hstep : groupStep lang matm pn pw zoom
          (acc, lineDataOf (first :: rest)) w =
          (acc, lineDataOf (first :: rest)) := by
        simp only [groupStep]
        rw [if_neg hkP]
      rw [hstep]
      exact ih acc first rest

/-- Starting the grouping loop from the empty state produces exactly the
spec-side chunking output. -/
theorem groupFold_start (lang : Lang) (matm : String → ℕ → Bool) (pn : ℕ)
    (pw : ℚ) (zoom : ℕ) :
    ∀ (ws : List OcrWord) (acc : List OcrOutLine),
      ((ws.foldl (groupStep lang matm pn pw zoom) (acc, ⟨[], none, []⟩)).1 ++
        (if (ws.foldl (groupStep lang matm pn pw zoom)
            (acc, ⟨[], none, []⟩)).2.words ≠ [] then
          (finalize_line lang matm
            (ws.foldl (groupStep lang matm pn pw zoom)
              (acc, ⟨[], none, []⟩)).2 pn pw).toList
         else [])) =
      acc ++ ((chunkBy (if isCJKK lang then 15 else 12)
          ((ws.map (scaleWord zoom)).filter (keepWord lang))).map
        lineDataOf).filterMap (fun ld => finalize_line lang matm ld pn pw) := by
  intro ws
  induction ws with
  | nil =>
    intro acc
    simp [chunkBy]
  | cons w ws' ih =>
    intro acc
    rw [List.foldl_cons, List.map_cons, List.filter_cons]
    by_cases hk : keepWord lang (scaleWord zoom w) = true
    · rw [if_pos hk]
      have hkP : ¬ pyStrip w.text = "" ∧
          (if isCJKK lang then (20 : ℤ) else 30) < w.conf := by
        simpa [keepWord, scaleWord] using hk
      have hstep : groupStep lang matm pn pw zoom (acc, ⟨[], none, []⟩) w =
          (acc, lineDataOf [⟨pyStrip w.text, w.conf, w.left / zoom,
            w.top / zoom, w.width / zoom, w.height / zoom⟩]) := by
        simp only [groupStep]
        rw [if_pos hkP]
        simp only [Option.elim_none, List.nil_append, lineDataOf, chunkBBox,
          List.map_cons, List.map_nil, List.foldl_nil,
          Nat.add_sub_cancel_left]
      rw [hstep]
      simp only [chunkBy]
      exact groupFold_chunk lang matm pn pw zoom ws' acc (scaleWord zoom w) []
    · rw [if_neg hk]
      have hkP : ¬ (¬ pyStrip w.text = "" ∧
          (if isCJKK lang then (20 : ℤ) else 30) < w.conf) := by
        intro hc
        exact hk (by simpa [keepWord, scaleWord] using hc)
      have hstep : groupStep lang matm pn pw zoom (acc, ⟨[], none, []⟩) w =
          (acc, ⟨[], none, []⟩) := by
        simp only [groupStep]
        rw [if_neg hkP]
      rw [hstep]
      exact ih acc

/-- C3 (amended): the grouping loop is equivalent to the following spec:
words whose stripped text is empty or whose confidence is NOT strictly above
the language floor (20 CJK/Korean, 30 otherwise) are skipped entirely (they
neither start nor join a line); among the retained words, a new line starts
exactly when a word's scaled top differs from the current line's first-word
top by at least the tolerance (15 CJK/Korean, 12 otherwise); retained
in-tolerance words extend the line's bounding box (maximum of right edges,
maximum of heights); each completed group is then finalized. -/
theorem group_words_into_lines_spec_c3 (lang : Lang)
    (matm : String → ℕ → Bool) (words : List OcrWord) (pn : ℕ) (pw : ℚ)
    (zoom : ℕ) :
    group_words_into_lines lang matm words pn pw zoom =
      specGroup lang matm words pn pw zoom := by
  have h := groupFold_start lang matm pn pw zoom words []
  rw [List.nil_append] at h
  exact h

/-- The three OCR words of the C3 counterexample: two confident words on the
same row separated by a low-confidence word. -/
def wordA : OcrWord := ⟨"A", 50, 0, 0, 10, 10⟩

def wordB : OcrWord := ⟨"B", 10, 0, 0, 10, 10⟩

def wordC : OcrWord := ⟨"C", 50, 12, 0, 10, 10⟩

theorem group_cex_survives :
    ¬ ((if isConcatLang .english then
          pyJoin "" (⟨["A", "C"], some (0, 0, 22, 10), [50, 50]⟩ :
            LineData).words
        else pyJoin " " (⟨["A", "C"], some (0, 0, 22, 10), [50, 50]⟩ :
            LineData).words).length <
          (if isCJKK .english then 1 else 2) ∨
      ((⟨["A", "C"], some (0, 0, 22, 10), [50, 50]⟩ :
          LineData).confidences.sum : ℚ) /
        ((⟨["A", "C"], some (0, 0, 22, 10), [50, 50]⟩ :
          LineData).confidences.length : ℚ) <
        (if isCJKK .english then (20 : ℚ) else 25)) := by
  refine not_or.mpr ⟨by decide, ?_⟩
  have h1 : (⟨["A", "C"], some (0, 0, 22, 10), [50, 50]⟩ :
      LineData).confidences.sum = 100 := by decide
  have h2 : (⟨["A", "C"], some (0, 0, 22, 10), [50, 50]⟩ :
      LineData).confidences.length = 2 := by decide
  rw [h1, h2]
  norm_num [isCJKK]

/-- Counterexample to C3 as frozen: the middle word "B" has confidence 10,
below the English floor of 30, yet it does NOT start a new line — it is
skipped entirely, and the surrounding words "A" and "C" (identical tops) end
up joined in a single line "A C". -/
theorem group_words_into_lines_c3_cex :
    ((10 : ℤ) < 30) ∧ wordB.conf = 10 ∧
    wordA.top = wordC.top ∧
    (group_words_into_lines .english matNone [wordA, wordB, wordC] 0 1000
      1).map (fun l => l.line.text) = ["A C"] := by
  refine ⟨by norm_num, rfl, rfl, ?_⟩
  have h2 : group_words_into_lines .english matNone [wordA, wordB, wordC]
      0 1000 1 =
      ((chunkBy (if isCJKK .english then 15 else 12)
        (([wordA, wordB, wordC].map (scaleWord 1)).filter
          (keepWord .english))).map lineDataOf).filterMap
        (fun ld => finalize_line .english matNone ld 0 1000) := by
    have h := groupFold_start .english matNone 0 1000 1 [wordA, wordB, wordC] []
    rw [List.nil_append] at h
    exact h
  have hchunks : (chunkBy (if isCJKK .english then 15 else 12)
      (([wordA, wordB, wordC].map (scaleWord 1)).filter
        (keepWord .english))).map lineDataOf =
      [⟨["A", "C"], some (0, 0, 22, 10), [50, 50]⟩] := by decide
  rw [h2, hchunks]
  obtain ⟨l, hl, htext⟩ := Option.map_eq_some'.mp
    (finalize_line_map_text .english matNone
      ⟨["A", "C"], some (0, 0, 22, 10), [50, 50]⟩ 0 1000 (0, 0, 22, 10) rfl
      group_cex_survives)
  rw [@List.filterMap_cons_some _ _
    (fun ld => finalize_line .english matNone ld 0 1000) _ _ _ hl,
    List.filterMap_nil]
  have htext2 : l.line.text = "A C" := htext.trans (by decide)
  simp [htext2]

/-! ### Batch processing (`processor.py`) and file validation (`utils.py`) -/

/-- Model of Python `str.lower` (ASCII). -/
def pyLower (s : String) : String := String.mk (s.data.map Char.toLower)

/-- A candidate filesystem entry, as `validate_pdf_file` inspects it:
existence, extension (`Path.suffix`), and the first four bytes of the file
(`none` models an `IOError`/`OSError` while reading). -/
structure FsFile where
  name : String
  stem : String
  existsOnDisk : Bool
  suffix : String
  header4 : Option String
deriving DecidableEq, Repr

/-- `validate_pdf_file` (utils.py lines 58-80): the file exists, its
lower-cased extension is ".pdf", and its first four bytes are the `%PDF`
magic; a read error yields `False`. -/
def validate_pdf_file (f : FsFile) : Bool :=
  if f.existsOnDisk = false then false
  else if pyLower f.suffix ≠ ".pdf" then false
  else
    match f.header4 with
    | none => false
    | some h => h == "%PDF"

/-- The outcome of `extract_outline` for one document (as consumed by
`process_single_pdf`). -/
structure ExtractResult where
  title : String
  outline : List OutlineItem
  processing_time : ℚ
  language : Lang
  detected_language : Option Lang
  total_lines : ℕ
deriving DecidableEq, Repr

/-- The environment of one document-processing task: the outcomes of its
fallible collaborators (exceptions modelled as `Except.error` with the
exception message), the elapsed wall time at return, and the file size. -/
structure DocEnv where
  extract : Except String ExtractResult
  write : Except String Unit
  elapsed : ℚ
  size_mb : ℚ
deriving Repr

/-- The per-document result dictionary built by `process_single_pdf`. -/
structure DocResult where
  success : Bool
  pdf_path : String
  output_file : Option String
  error : Option String
  processing_time : ℚ
  headings_found : ℕ
  title : Option String
  file_size_mb : ℚ
deriving DecidableEq, Repr

/-- The body of the `try` block of `process_single_pdf` (processor.py lines
55-93): validation, extraction, and output writing, each step propagating
its exception. -/
def singleBody (f : FsFile) (env : DocEnv) (output_dir : String) :
    Except String (ExtractResult × String) :=
  if validate_pdf_file f = false then
    .error ("Invalid or corrupted PDF file: " ++ f.name)
  else
    match env.extract with
    | .error e => .error e
    | .ok r =>
      match env.write with
      | .error e => .error e
      | .ok _ => .ok (r, output_dir ++ "/" ++ f.stem ++ ".json")

/-- `BatchProcessor.process_single_pdf` (processor.py lines 42-119): the
`try` body wrapped in the catch-all `except Exception` that converts any
error into a `success = False` record carrying the exception message and the
elapsed time (`get_file_info(...).get("size_mb", 0)` yields 0 when the file
does not exist). -/
def process_single_pdf (f : FsFile) (env : DocEnv) (pdf_path : String)
    (output_dir : String) : DocResult :=
  match singleBody f env output_dir with
  | .ok (r, out) =>
      { success := true, pdf_path := pdf_path, output_file := some out,
        error := none, processing_time := env.elapsed,
        headings_found := r.outline.length, title := some r.title,
        file_size_mb := env.size_mb }
  | .error e =>
      { success := false, pdf_path := pdf_path, output_file := none,
        error := some e, processing_time := env.elapsed,
        headings_found := 0, title := none,
        file_size_mb := if f.existsOnDisk then env.size_mb else 0 }

/-- The batch-level result record of `process_batch`; `failedFast` marks the
early `{"success": False, ...}` return for an empty valid-file list. -/
structure BatchResults where
  failedFast : Bool
  error : Option String
  total_files : ℕ
  successful : List DocResult
  failed : List DocResult
deriving Repr

/-- `BatchProcessor.process_batch` (processor.py lines 121-211): filter the
candidate files through `validate_pdf_file`; with no valid file, fail fast
WITHOUT creating the output directory (the Boolean in the result records
whether `output_dir.mkdir` was reached); otherwise process every valid file
(task isolation: each file's record depends only on its own environment) and
partition the records by their `success` flag. -/
def process_batch (envOf : FsFile → DocEnv) (candidates : List FsFile)
    (input_dir output_dir : String) : BatchResults × Bool :=
  let pdf_files := candidates.filter validate_pdf_file
  if pdf_files.isEmpty then
    (⟨true, some ("No valid PDF files found in " ++ input_dir), 0, [], []⟩,
     false)
  else
    let results := pdf_files.map
      (fun f => process_single_pdf f (envOf f) f.name output_dir)
    (⟨false, none, pdf_files.length,
      results.filter (fun r => r.success),
      results.filter (fun r => !r.success)⟩,
     true)

theorem process_single_pdf_path (f : FsFile) (env : DocEnv)
    (pdf_path output_dir : String) :
    (process_single_pdf f env pdf_path output_dir).pdf_path = pdf_path := by
  unfold process_single_pdf
  cases singleBody f env output_dir with
  | ok v => rfl
  | error e => rfl

/-- C8: every error in a document task (validation, extraction, or output
writing) is caught at the task boundary and converted into a
`success = false` record carrying the error message and the elapsed time;
a task fails exactly when its body raises; a validation failure produces the
`Invalid or corrupted PDF file` message; and a failing task does not abort
its siblings: every valid file of a batch still contributes exactly its own
record, computed from its own environment only. -/
theorem process_single_pdf_isolated_c8 (f : FsFile) (env : DocEnv)
    (pdf_path output_dir : String) :
    (∀ e, singleBody f env output_dir = .error e →
      process_single_pdf f env pdf_path output_dir =
        { success := false, pdf_path := pdf_path, output_file := none,
          error := some e, processing_time := env.elapsed,
          headings_found := 0, title := none,
          file_size_mb := if f.existsOnDisk then env.size_mb else 0 }) ∧
    ((process_single_pdf f env pdf_path output_dir).success = false ↔
      ∃ e, singleBody f env output_dir = .error e) ∧
    (validate_pdf_file f = false →
      (process_single_pdf f env pdf_path output_dir).success = false ∧
      (process_single_pdf f env pdf_path output_dir).error =
        some ("Invalid or corrupted PDF file: " ++ f.name)) ∧
    (∀ (envOf : FsFile → DocEnv) (candidates : List FsFile)
      (input_dir : String), ∀ g ∈ candidates.filter validate_pdf_file,
      ∃ r ∈ (process_batch envOf candidates input_dir output_dir).1.successful
          ++ (process_batch envOf candidates input_dir output_dir).1.failed,
        r = process_single_pdf g (envOf g) g.name output_dir) := by
  refine ⟨?_, ?_, ?_, ?_⟩
  · intro e he
    unfold process_single_pdf
    rw [he]
  · constructor
    · intro hc
      unfold process_single_pdf at hc
      cases hb : singleBody f env output_dir with
      | ok v =>
        rw [hb] at hc
        exact Bool.noConfusion hc
      | error e =>
        exact ⟨e, rfl⟩
    · rintro ⟨e, he⟩
      unfold process_single_pdf
      rw [he]
  · intro hv
    have hb : singleBody f env output_dir =
        .error ("Invalid or corrupted PDF file: " ++ f.name) := by
      unfold singleBody
      rw [if_pos hv]
    unfold process_single_pdf
    rw [hb]
    exact ⟨rfl, rfl⟩
  · intro envOf candidates input_dir g hg
    have hne : (candidates.filter validate_pdf_file).isEmpty = false := by
      cases hl : candidates.filter validate_pdf_file with
      | nil => rw [hl] at hg; exact absurd hg (List.not_mem_nil g)
      | cons a t => rfl
    refine ⟨process_single_pdf g (envOf g) g.name output_dir, ?_, rfl⟩
    have hmem : process_single_pdf g (envOf g) g.name output_dir ∈
        (candidates.filter validate_pdf_file).map
          (fun h => process_single_pdf h (envOf h) h.name output_dir) :=
      List.mem_map.mpr ⟨g, hg, rfl⟩
    unfold process_batch
    rw [if_neg (by rw [hne]; exact Bool.false_ne_true)]
    simp only [List.mem_append]
    by_cases hs : (process_single_pdf g (envOf g) g.name output_dir).success
      = true
    · exact Or.inl (List.mem_filter.mpr ⟨hmem, hs⟩)
    · refine Or.inr (List.mem_filter.mpr ⟨hmem, ?_⟩)
      rw [Bool.not_eq_true] at hs
      rw [hs]
      rfl

/-- A passing file and a failing (wrong-extension) file for the witnesses. -/
def goodFile : FsFile := ⟨"doc.pdf", "doc", true, ".pdf", some "%PDF"⟩

def textFile : FsFile := ⟨"notes.txt", "notes", true, ".txt", some "abcd"⟩

/-- A task environment whose extraction step raises. -/
def boomEnv : DocEnv := ⟨.error "boom", .ok (), 2, 1⟩

/-- Witness for `process_single_pdf_isolated_c8`: a task whose extraction
raises "boom" yields the failed record with that message and the elapsed
time, and still appears in its batch next to a sibling. -/
theorem process_single_pdf_isolated_c8_witness :
    process_single_pdf goodFile boomEnv "in/doc.pdf" "out" =
      { success := false, pdf_path := "in/doc.pdf", output_file := none,
        error := some "boom", processing_time := boomEnv.elapsed,
        headings_found := 0, title := none,
        file_size_mb := if goodFile.existsOnDisk then boomEnv.size_mb
          else 0 } ∧
    ∃ r ∈ (process_batch (fun _ => boomEnv) [goodFile, textFile] "in"
          "out").1.successful ++
        (process_batch (fun _ => boomEnv) [goodFile, textFile] "in"
          "out").1.failed,
      r = process_single_pdf goodFile boomEnv goodFile.name "out" := by
  constructor
  · exact (process_single_pdf_isolated_c8 goodFile boomEnv "in/doc.pdf"
      "out").1 "boom" rfl
  · refine (process_single_pdf_isolated_c8 goodFile boomEnv goodFile.name
      "out").2.2.2 (fun _ => boomEnv) [goodFile, textFile] "in" goodFile ?_
    decide

/-- C9: a batch processes exactly the candidate files passing
`validate_pdf_file` (exists, `.pdf` extension, `%PDF` signature): the
processed records' paths are a permutation of the valid candidates' names,
`total_files` counts only valid files, every record stems from a valid
candidate, and with zero valid files the batch fails fast with a descriptive
error, empty result lists, and no output-directory creation. -/
theorem process_batch_valid_only_c9 (envOf : FsFile → DocEnv)
    (candidates : List FsFile) (input_dir output_dir : String) :
    (((process_batch envOf candidates input_dir output_dir).1.successful ++
        (process_batch envOf candidates input_dir output_dir).1.failed).map
      (fun r => r.pdf_path)).Perm
      ((candidates.filter validate_pdf_file).map (fun f => f.name)) ∧
    (process_batch envOf candidates input_dir output_dir).1.total_files =
      (candidates.filter validate_pdf_file).length ∧
    (candidates.filter validate_pdf_file = [] →
      (process_batch envOf candidates input_dir output_dir).1.failedFast =
        true ∧
      (process_batch envOf candidates input_dir output_dir).1.error =
        some ("No valid PDF files found in " ++ input_dir) ∧
      (process_batch envOf candidates input_dir output_dir).1.successful =
        [] ∧
      (process_batch envOf candidates input_dir output_dir).1.failed = [] ∧
      (process_batch envOf candidates input_dir output_dir).2 = false) ∧
    (candidates.filter validate_pdf_file ≠ [] →
      (process_batch envOf candidates input_dir output_dir).2 = true ∧
      (process_batch envOf candidates input_dir output_dir).1.failedFast =
        false) := by
  by_cases hemp : candidates.filter validate_pdf_file = []
  · have he : (candidates.filter validate_pdf_file).isEmpty = true := by
      rw [hemp]
      rfl
    unfold process_batch
    rw [if_pos he]
    refine ⟨?_, ?_, ?_, ?_⟩
    · rw [hemp]
      exact List.Perm.refl _
    · rw [hemp]
      rfl
    · intro _
      exact ⟨rfl, rfl, rfl, rfl, rfl⟩
    · intro hc
      exact absurd hemp hc
  · have he : (candidates.filter validate_pdf_file).isEmpty = false := by
      cases hl : candidates.filter validate_pdf_file with
      | nil => exact absurd hl hemp
      | cons a t => rfl
    unfold process_batch
    rw [if_neg (by rw [he]; exact Bool.false_ne_true)]
    refine ⟨?_, rfl, fun hc => absurd hc hemp, fun _ => ⟨rfl, rfl⟩⟩
    have hperm := List.filter_append_perm (fun r => r.success)
      ((candidates.filter validate_pdf_file).map
        (fun f => process_single_pdf f (envOf f) f.name output_dir))
    have hmap := hperm.map (fun r => r.pdf_path)
    refine hmap.trans ?_
    rw [List.map_map]
    refine List.Perm.of_eq (List.map_congr_left ?_)
    intro f _
    exact process_single_pdf_path f (envOf f) f.name output_dir

/-- Witness for `process_batch_valid_only_c9`: a batch over one valid and
one invalid candidate, and a fail-fast batch over only the invalid one. -/
theorem process_batch_valid_only_c9_witness :
    (process_batch (fun _ => boomEnv) [goodFile, textFile] "in"
      "out").1.total_files = 1 ∧
    (process_batch (fun _ => boomEnv) [textFile] "in" "out").1.failedFast =
      true ∧
    (process_batch (fun _ => boomEnv) [textFile] "in" "out").2 = false := by
  refine ⟨?_, ?_, ?_⟩
  · have h := (process_batch_valid_only_c9 (fun _ => boomEnv)
      [goodFile, textFile] "in" "out").2.1
    rw [h]
    decide
  · exact ((process_batch_valid_only_c9 (fun _ => boomEnv) [textFile] "in"
      "out").2.2.1 (by decide)).1
  · exact ((process_batch_valid_only_c9 (fun _ => boomEnv) [textFile] "in"
      "out").2.2.1 (by decide)).2.2.2.2

end PdfParser
